import Mathlib

/-!
# Explanation renderer of the network-policy matcher

Shallow embedding of `cmd/cyclonus/pkg/netpol/matcher/explain.go`.

* Go interface values (`EdgeMatcher`, `InternalMatcher`, `PortMatcher`, `PodMatcher`,
  `NamespaceMatcher`) are inductive types with one constructor per concrete type named in a
  type switch of the source, plus a constructor `Other` standing for any other dynamic type
  (the nil interface included); `Other` carries the `%T` rendering of that type.
* `panic(errors.Errorf(...))` is `Except.error` with the formatted message; a function that
  can reach a panic returns `Except String _`.
* `for _, x := range xs { lines = append(lines, ...) }` is a left fold over `xs` whose
  accumulator is `lines`.
* `SerializeLabelSelector` is not defined in the embedded file; every function that calls it
  takes it as the argument `ser`.
-/

namespace Matcher

/-! ## Data model -/

/-- One requirement of a label selector (`metav1.LabelSelectorRequirement`). -/
structure LabelSelectorRequirement where
  Key : String
  Operator : String
  Values : List String
  deriving DecidableEq, Repr

/-- Label selector (`metav1.LabelSelector`); the Go map `MatchLabels` is kept as an
association list. -/
structure LabelSelector where
  MatchLabels : List (String × String)
  MatchExpressions : List LabelSelectorRequirement
  deriving DecidableEq, Repr

/-- Port identifier (`intstr.IntOrString`): a number or a name. -/
inductive IntOrString where
  | FromInt (IntVal : Int)
  | FromString (StrVal : String)
  deriving DecidableEq, Repr

/-- Method `String()` of `intstr.IntOrString`: the name, or the number in decimal. -/
def IntOrString.String : IntOrString → String
  | .FromInt n => toString n
  | .FromString s => s

/-- Entry of a `SpecificPortsMatcher`: `Port` is a nullable pointer, `Protocol` is the
string-typed `v1.Protocol`. -/
structure PortProtocolMatcher where
  Port : Option IntOrString
  Protocol : String
  deriving DecidableEq, Repr

/-- Dynamic types of a `PortMatcher` interface value. -/
inductive PortMatcher where
  | AllPortsMatcher
  | SpecificPortsMatcher (Ports : List PortProtocolMatcher)
  | Other (goType : String)
  deriving DecidableEq, Repr

/-- Dynamic types of a `PodMatcher` interface value. -/
inductive PodMatcher where
  | AllPodsMatcher
  | LabelSelectorPodMatcher (Selector : LabelSelector)
  | Other (goType : String)
  deriving DecidableEq, Repr

/-- Dynamic types of a `NamespaceMatcher` interface value. -/
inductive NamespaceMatcher where
  | AllNamespacesMatcher
  | ExactNamespaceMatcher (Namespace : String)
  | LabelSelectorNamespaceMatcher (Selector : LabelSelector)
  | Other (goType : String)
  deriving DecidableEq, Repr

/-- Element of `SpecificInternalMatcher.PodPeers`. -/
structure PodPeerMatcher where
  Namespace : NamespaceMatcher
  Pod : PodMatcher
  Port : PortMatcher
  deriving DecidableEq, Repr

/-- Dynamic types of an `InternalMatcher` interface value. -/
inductive InternalMatcher where
  | AllInternalMatcher
  | SpecificInternalMatcher (PodPeers : List PodPeerMatcher)
  | Other (goType : String)
  deriving DecidableEq, Repr

/-- IP block (`networkingv1.IPBlock`). -/
structure IPBlock where
  CIDR : String
  Except : List String
  deriving DecidableEq, Repr

/-- Element of `SpecificEdgeMatcher.IP`. -/
structure IPPeerMatcher where
  IPBlock : IPBlock
  PortMatcher : PortMatcher
  deriving DecidableEq, Repr

/-- Dynamic types of the interface value `Target.Edge`. -/
inductive EdgeMatcher where
  | NoneEdgeMatcher
  | AllEdgeMatcher
  | SpecificEdgeMatcher (IP : List IPPeerMatcher) (Internal : InternalMatcher)
  | Other (goType : String)
  deriving DecidableEq, Repr

/-- Element of `Target.SourceRules`; the renderer reads `sr.Namespace` and `sr.Name`. -/
structure SourceRule where
  Namespace : String
  Name : String
  deriving DecidableEq, Repr

/-- Target as far as the renderer reads it. The body of the method `GetPrimaryKey` is not
part of the embedded file, so the string it returns for a target is the field
`primaryKey`. -/
structure Target where
  primaryKey : String
  SourceRules : List SourceRule
  Edge : EdgeMatcher
  deriving DecidableEq, Repr

/-- Method `GetPrimaryKey`: takes no argument besides the target. -/
def Target.GetPrimaryKey (target : Target) : String := target.primaryKey

/-- Modelled from the spec: the declaration of `Policy` is not part of the embedded file;
the spec gives it as two ordered lists of targets, which is how `Explain` ranges over
`policies.Ingress` and `policies.Egress`. -/
structure Policy where
  Ingress : List Target
  Egress : List Target
  deriving DecidableEq, Repr

/-! ## Formatting helpers -/

/-- Rendering of a `[]string` under the verb `%+v`: the elements separated by one space,
between square brackets. -/
def fmtStringSlice (xs : List String) : String :=
  "[" ++ " ".intercalate xs ++ "]"

/-- The name `targetType` that `ExplainTarget` derives from `isIngress`. -/
def targetType (isIngress : Bool) : String :=
  if isIngress then "ingress" else "egress"

/-! ## The renderer -/

/-- Embedding of `ExplainPortMatcher`. -/
def ExplainPortMatcher (pm : PortMatcher) : Except String (List String) :=
  match pm with
  | .AllPortsMatcher => .ok ["all ports all protocols"]
  | .SpecificPortsMatcher Ports =>
    .ok (Ports.foldl
      (fun lines port =>
        match port.Port with
        | some p => lines ++ ["port " ++ p.String ++ " on protocol " ++ port.Protocol]
        | none => lines ++ ["all ports on protocol " ++ port.Protocol])
      [])
  | .Other goType => .error ("invalid PortMatcher type " ++ goType)

/-- Embedding of `ExplainPodMatcher`. -/
def ExplainPodMatcher (ser : LabelSelector → String) (pm : PodMatcher) : Except String String :=
  match pm with
  | .AllPodsMatcher => .ok "all pods"
  | .LabelSelectorPodMatcher Selector => .ok ("pods matching " ++ ser Selector)
  | .Other goType => .error ("invalid PodMatcher type " ++ goType)

/-- Embedding of `ExplainNamespaceMatcher`. -/
def ExplainNamespaceMatcher (ser : LabelSelector → String) (pm : NamespaceMatcher) :
    Except String String :=
  match pm with
  | .AllNamespacesMatcher => .ok "all namespaces"
  | .ExactNamespaceMatcher Namespace => .ok ("namespace " ++ Namespace)
  | .LabelSelectorNamespaceMatcher Selector => .ok ("namespaces matching " ++ ser Selector)
  | .Other goType => .error ("invalid NamespaceMatcher type " ++ goType)

/-- Body of the loop over `l.PodPeers` in `ExplainInternal`: the peer line is formatted
(namespace phrase first, then pod phrase) and appended, then the port lines are appended
with six spaces in front. -/
def explainPodPeerStep (ser : LabelSelector → String) (lines : List String)
    (peer : PodPeerMatcher) : Except String (List String) := do
  let ns ← ExplainNamespaceMatcher ser peer.Namespace
  let pod ← ExplainPodMatcher ser peer.Pod
  let lines := lines ++ ["    " ++ ns ++ "; " ++ pod]
  let ports ← ExplainPortMatcher peer.Port
  pure (ports.foldl (fun lines port => lines ++ ["      " ++ port]) lines)

/-- Embedding of `ExplainInternal`. Its type switch has no `default` branch: on any other
dynamic type the empty `lines` is returned. -/
def ExplainInternal (ser : LabelSelector → String) (i : InternalMatcher) :
    Except String (List String) :=
  match i with
  | .AllInternalMatcher => .ok ([] ++ ["    all pods in all namespaces"])
  | .SpecificInternalMatcher PodPeers => PodPeers.foldlM (explainPodPeerStep ser) []
  | .Other _ => .ok []

/-- Body of the loop over `tp.IP` in `ExplainEdgePeerPortMatcher`. -/
def explainIPPeerStep (lines : List String) (ip : IPPeerMatcher) :
    Except String (List String) := do
  let block := "IPBlock: cidr " ++ ip.IPBlock.CIDR ++ ", except " ++ fmtStringSlice ip.IPBlock.Except
  let lines := lines ++ ["  - " ++ block]
  let ports ← ExplainPortMatcher ip.PortMatcher
  pure (ports.foldl (fun lines port => lines ++ ["    " ++ port]) lines)

/-- Embedding of `ExplainEdgePeerPortMatcher`; the argument is the content of the
`SpecificEdgeMatcher`. -/
def ExplainEdgePeerPortMatcher (ser : LabelSelector → String) (IP : List IPPeerMatcher)
    (Internal : InternalMatcher) : Except String (List String) := do
  let lines ← IP.foldlM explainIPPeerStep []
  let internal ← ExplainInternal ser Internal
  pure (lines ++ internal)

/-- Embedding of `ExplainTarget`. -/
def ExplainTarget (ser : LabelSelector → String) (target : Target) (isIngress : Bool) :
    Except String (List String) := do
  let targetType := targetType isIngress
  let lines : List String := []
  let lines := lines ++ [target.GetPrimaryKey]
  let lines :=
    if target.SourceRules.length ≠ 0 then
      target.SourceRules.foldl
        (fun lines sr => lines ++ ["    " ++ sr.Namespace ++ "/" ++ sr.Name])
        (lines ++ ["  source rules:"])
    else lines
  let lines ←
    match target.Edge with
    | .NoneEdgeMatcher => pure (lines ++ ["  all " ++ targetType ++ " blocked"])
    | .AllEdgeMatcher => pure (lines ++ ["  all " ++ targetType ++ " allowed"])
    | .SpecificEdgeMatcher IP Internal => do
      let lines := lines ++ ["  " ++ targetType ++ ":"]
      let a ← ExplainEdgePeerPortMatcher ser IP Internal
      pure (lines ++ a)
    | .Other goType => throw ("invalid EdgeMatcher type " ++ goType)
  pure (lines ++ [""])

/-- Embedding of `Explain`. -/
def Explain (ser : LabelSelector → String) (policies : Policy) : Except String String := do
  let lines ← policies.Ingress.foldlM
    (fun lines t => do pure (lines ++ (← ExplainTarget ser t true))) []
  let lines ← policies.Egress.foldlM
    (fun lines t => do pure (lines ++ (← ExplainTarget ser t false))) lines
  pure ("\n".intercalate lines)

/-! ## Known variants -/

/-- The port matcher is one of the two types the renderer knows. -/
def PortMatcher.Known : PortMatcher → Bool
  | .Other _ => false
  | _ => true

/-- The pod matcher is one of the two types the renderer knows. -/
def PodMatcher.Known : PodMatcher → Bool
  | .Other _ => false
  | _ => true

/-- The namespace matcher is one of the three types the renderer knows. -/
def NamespaceMatcher.Known : NamespaceMatcher → Bool
  | .Other _ => false
  | _ => true

/-- All three matchers of the pod peer are of known types. -/
def PodPeerMatcher.Known (peer : PodPeerMatcher) : Bool :=
  peer.Namespace.Known && peer.Pod.Known && peer.Port.Known

/-- The internal matcher and everything nested in it are of known types. -/
def InternalMatcher.Known : InternalMatcher → Bool
  | .AllInternalMatcher => true
  | .SpecificInternalMatcher PodPeers => PodPeers.all PodPeerMatcher.Known
  | .Other _ => false

/-- The edge matcher and everything nested in it are of known types. -/
def EdgeMatcher.Known : EdgeMatcher → Bool
  | .NoneEdgeMatcher => true
  | .AllEdgeMatcher => true
  | .SpecificEdgeMatcher IP Internal => IP.all (fun ip => ip.PortMatcher.Known) && Internal.Known
  | .Other _ => false

/-- The edge of the target is of known types throughout. -/
def Target.Known (target : Target) : Bool := target.Edge.Known

/-- Every target of the policy is of known types throughout. -/
def Policy.Known (policies : Policy) : Bool :=
  policies.Ingress.all Target.Known && policies.Egress.all Target.Known

/-! ## Line layouts as the specification words them -/

/-- Port line of one entry of a `SpecificPortsMatcher`. -/
def portLine (entry : PortProtocolMatcher) : String :=
  match entry.Port with
  | none => "all ports on protocol " ++ entry.Protocol
  | some p => "port " ++ p.String ++ " on protocol " ++ entry.Protocol

/-- Source-rule lines: nothing for an empty list, otherwise the heading and one line
`<policyNamespace>/<policyName>` per rule behind four spaces. -/
def sourceRuleLines (rules : List SourceRule) : List String :=
  match rules with
  | [] => []
  | _ :: _ => "  source rules:" :: rules.map (fun sr => "    " ++ sr.Namespace ++ "/" ++ sr.Name)

/-- Lines of one IP peer: the `IPBlock` line, then its port lines behind four spaces. -/
def ipPeerLines (ip : IPPeerMatcher) : Except String (List String) := do
  let ports ← ExplainPortMatcher ip.PortMatcher
  pure (("  - IPBlock: cidr " ++ ip.IPBlock.CIDR ++ ", except " ++ fmtStringSlice ip.IPBlock.Except)
    :: ports.map (fun port => "    " ++ port))

/-- Lines of one pod peer: the line `<namespace phrase>; <pod phrase>` behind four spaces,
then its port lines behind six spaces. -/
def podPeerLines (ser : LabelSelector → String) (peer : PodPeerMatcher) :
    Except String (List String) := do
  let ns ← ExplainNamespaceMatcher ser peer.Namespace
  let pod ← ExplainPodMatcher ser peer.Pod
  let ports ← ExplainPortMatcher peer.Port
  pure (("    " ++ ns ++ "; " ++ pod) :: ports.map (fun port => "      " ++ port))

/-- Lines that the type switch on `target.Edge` in `ExplainTarget` appends. -/
def edgeLines (ser : LabelSelector → String) (edge : EdgeMatcher) (isIngress : Bool) :
    Except String (List String) :=
  match edge with
  | .NoneEdgeMatcher => .ok ["  all " ++ targetType isIngress ++ " blocked"]
  | .AllEdgeMatcher => .ok ["  all " ++ targetType isIngress ++ " allowed"]
  | .SpecificEdgeMatcher IP Internal => do
    let peers ← IP.mapM ipPeerLines
    let internal ← ExplainInternal ser Internal
    pure (("  " ++ targetType isIngress ++ ":") :: (peers.flatten ++ internal))
  | .Other goType => .error ("invalid EdgeMatcher type " ++ goType)

/-- Number of port lines of a port matcher (none when it cannot be rendered). -/
def portLineCount (pm : PortMatcher) : Nat :=
  match ExplainPortMatcher pm with
  | .ok lines => lines.length
  | .error _ => 0

/-- Modelled from the spec: the body of `GetPrimaryKey` is not part of the embedded file;
the spec words the primary key line of a target of a direction, a namespace and a canonical
selector as `<direction>: <namespace>/<canonical selector>`. -/
def primaryKeyLine (isIngress : Bool) (ns selector : String) : String :=
  targetType isIngress ++ ": " ++ ns ++ "/" ++ selector

/-- The line is a primary key line of the direction, for some namespace and selector. -/
def IsPrimaryKeyLine (isIngress : Bool) (line : String) : Prop :=
  ∃ ns selector : String, line = primaryKeyLine isIngress ns selector

/-- The text `sub` occurs in `s` as a contiguous run of characters. -/
def ContainsText (s sub : String) : Prop := sub.data <:+: s.data

instance decidableContainsText (s sub : String) : Decidable (ContainsText s sub) :=
  inferInstanceAs (Decidable (sub.data <:+: s.data))

/-- The line starts with two spaces. -/
def StartsWithTwoSpaces (line : String) : Prop := [' ', ' '] <+: line.data

instance decidableStartsWithTwoSpaces (line : String) : Decidable (StartsWithTwoSpaces line) :=
  inferInstanceAs (Decidable ([' ', ' '] <+: line.data))

/-- Cuts a list of lines into blocks, closing a block after each empty line. -/
def cutAfterBlank : List String → List (List String)
  | [] => []
  | line :: rest =>
    if line = "" then [line] :: cutAfterBlank rest
    else
      match cutAfterBlank rest with
      | [] => [[line]]
      | block :: blocks => (line :: block) :: blocks

/-- First line that the type switch on `target.Edge` in `ExplainTarget` appends (none when
the switch panics). -/
def edgeLine (edge : EdgeMatcher) (isIngress : Bool) : Option String :=
  match edge with
  | .NoneEdgeMatcher => some ("  all " ++ targetType isIngress ++ " blocked")
  | .AllEdgeMatcher => some ("  all " ++ targetType isIngress ++ " allowed")
  | .SpecificEdgeMatcher _ _ => some ("  " ++ targetType isIngress ++ ":")
  | .Other _ => none

/-- The line belongs to the source-rule section by its third character: a space (a rule
line, behind four spaces) or the `s` of the heading `  source rules:`. -/
def IsSourceSectionLine (line : String) : Prop :=
  line.data.get? 2 = some ' ' ∨ line.data.get? 2 = some 's'

end Matcher

/-! # Fixtures of the upstream conformance suite

Shallow embedding of `pkg/generator/upstreame2e.go`. The policy documents are values of the
platform schema (`networking/v1`); a Go pointer field is an `Option`, a Go slice or map
literal is a list in source order, and a field that a literal leaves out has its zero value
(`none`, the empty list, the empty string). -/

namespace Generator

open Matcher (LabelSelector LabelSelectorRequirement IntOrString IPBlock)

/-! ## Policy documents -/

/-- Protocol name (`v1.Protocol`, a string type). -/
abbrev Protocol := String

/-- Direction name of a policy (`PolicyType`, a string type). -/
abbrev PolicyType := String

/-- Constant `PolicyTypeIngress` of the platform schema. -/
def PolicyTypeIngress : PolicyType := "Ingress"

/-- Constant `PolicyTypeEgress` of the platform schema. -/
def PolicyTypeEgress : PolicyType := "Egress"

/-- Constant `v1.ProtocolTCP` of the platform schema. -/
def ProtocolTCP : Protocol := "TCP"

/-- Constant `metav1.LabelSelectorOpIn`. -/
def LabelSelectorOpIn : String := "In"

/-- Constant `metav1.LabelSelectorOpNotIn`. -/
def LabelSelectorOpNotIn : String := "NotIn"

/-- Name and namespace of a document (`metav1.ObjectMeta`). -/
structure ObjectMeta where
  Name : String := ""
  Namespace : String := ""
  deriving DecidableEq, Repr

/-- Port of a rule (`NetworkPolicyPort`). -/
structure NetworkPolicyPort where
  Protocol : Option Protocol := none
  Port : Option IntOrString := none
  deriving DecidableEq, Repr

/-- Peer of a rule (`NetworkPolicyPeer`). -/
structure NetworkPolicyPeer where
  PodSelector : Option LabelSelector := none
  NamespaceSelector : Option LabelSelector := none
  IPBlock : Option IPBlock := none
  deriving DecidableEq, Repr

/-- Ingress rule (`NetworkPolicyIngressRule`). -/
structure NetworkPolicyIngressRule where
  Ports : List NetworkPolicyPort := []
  From : List NetworkPolicyPeer := []
  deriving DecidableEq, Repr

/-- Egress rule (`NetworkPolicyEgressRule`). -/
structure NetworkPolicyEgressRule where
  Ports : List NetworkPolicyPort := []
  To : List NetworkPolicyPeer := []
  deriving DecidableEq, Repr

/-- Body of a document (`NetworkPolicySpec`). -/
structure NetworkPolicySpec where
  PodSelector : LabelSelector := ⟨[], []⟩
  Ingress : List NetworkPolicyIngressRule := []
  Egress : List NetworkPolicyEgressRule := []
  PolicyTypes : List PolicyType := []
  deriving DecidableEq, Repr

/-- Policy document (`NetworkPolicy`). -/
structure NetworkPolicy where
  ObjectMeta : ObjectMeta := {}
  Spec : NetworkPolicySpec := {}
  deriving DecidableEq, Repr

/-! ## Test cases -/

/-- Modelled from the spec: the constructors `CreatePolicy`, `UpdatePolicy`, `DeletePolicy`,
`SetNamespaceLabels` and `SetPodLabels` are declared outside the embedded file; the spec has
the producer emit fixtures that drive the compiler with document sequences. An action is kept
as the record of the arguments of its call, in call order; the two strings of `DeletePolicy`
are a namespace and a policy name, as in `DeletePolicy("x", "deny-all")` behind the creation
of `deny-all` in namespace `x`. -/
inductive Action where
  | CreatePolicy (policy : NetworkPolicy)
  | UpdatePolicy (policy : NetworkPolicy)
  | DeletePolicy (ns : String) (name : String)
  | SetNamespaceLabels (ns : String) (labels : List (String × String))
  | SetPodLabels (ns : String) (pod : String) (labels : List (String × String))
  deriving DecidableEq, Repr

/-- Modelled from the spec: `TestStep` is declared outside the embedded file; a step is kept
as the probe port, the probe protocol and the actions of the call that builds it. -/
structure TestStep where
  Port : Int
  Protocol : Protocol
  Actions : List Action
  deriving DecidableEq, Repr

/-- Modelled from the spec: `TestCase` is declared outside the embedded file; a test case is
kept as its description and its steps in call order. -/
structure TestCase where
  Description : String
  Steps : List TestStep
  deriving DecidableEq, Repr

/-- Modelled from the spec: `NewTestStep` is declared outside the embedded file; it is kept
as the step of its arguments. -/
def NewTestStep (port : Int) (protocol : Protocol) (actions : List Action) : TestStep :=
  ⟨port, protocol, actions⟩

/-- Modelled from the spec: `NewTestCase` is declared outside the embedded file; it is kept
as the test case of its arguments. -/
def NewTestCase (description : String) (steps : List TestStep) : TestCase :=
  ⟨description, steps⟩

/-- Modelled from the spec: `NewSingleStepTestCase` is declared outside the embedded file; it
is kept as the test case with the one step of its port, protocol and actions. -/
def NewSingleStepTestCase (description : String) (port : Int) (protocol : Protocol)
    (actions : List Action) : TestCase :=
  NewTestCase description [NewTestStep port protocol actions]

/-- Package variable `port81 = intstr.FromInt(81)`. -/
def port81 : IntOrString := .FromInt 81

/-- Modelled from the spec: the package variable `port80` is declared outside the embedded
file; the stacked-policies scenario of the spec has the policy that uses it admit TCP/80. -/
def port80 : IntOrString := .FromInt 80

/-- Modelled from the spec: the package variable `tcp` is declared outside the embedded file;
the scenarios of the spec probe and admit TCP where the fixtures use it. -/
def tcp : Protocol := "TCP"

/-- Modelled from the spec: the package variable `udp` is declared outside the embedded file;
the scenarios of the spec admit UDP/53 where the fixtures use it. -/
def udp : Protocol := "UDP"

/-- Modelled from the spec: `AllowDNSRule.Egress()` is declared outside the embedded file;
the deny-all scenario of the spec has egress with ports UDP/53 only. -/
def AllowDNSRuleEgress : NetworkPolicyEgressRule :=
  { Ports := [{ Protocol := some udp, Port := some (.FromInt 53) }] }

/-- Embedding of `UpstreamE2EGenerator.GenerateTestCases`. -/
def GenerateTestCases : List TestCase :=
  [ NewSingleStepTestCase "should support a 'default-deny-ingress' policy"
      80 ProtocolTCP
      [ .CreatePolicy
          { ObjectMeta := { Name := "deny-ingress", Namespace := "x" }
            Spec :=
              { PodSelector := ⟨[], []⟩
                PolicyTypes := [PolicyTypeIngress]
                Ingress := [] } } ],

    NewSingleStepTestCase "should support a 'default-deny-all' policy"
      80 ProtocolTCP
      [ .CreatePolicy
          { ObjectMeta := { Name := "deny-all-tcp-allow-dns", Namespace := "x" }
            Spec :=
              { PolicyTypes := [PolicyTypeEgress, PolicyTypeIngress]
                PodSelector := ⟨[], []⟩
                Ingress := []
                Egress := [AllowDNSRuleEgress] } } ],

    NewSingleStepTestCase
      "should enforce policy based on Multiple PodSelectors and NamespaceSelectors"
      80 ProtocolTCP
      [ .CreatePolicy
          { ObjectMeta := { Name := "allow-ns-y-z-pod-b-c", Namespace := "x" }
            Spec :=
              { PodSelector := ⟨[("pod", "a")], []⟩
                PolicyTypes := [PolicyTypeIngress]
                Ingress :=
                  [ { From :=
                        [ { NamespaceSelector :=
                              some ⟨[], [⟨"ns", LabelSelectorOpNotIn, ["x"]⟩]⟩
                            PodSelector :=
                              some ⟨[], [⟨"pod", LabelSelectorOpIn, ["b", "c"]⟩]⟩ } ] } ] } } ],

    NewTestCase
      "should enforce multiple, stacked policies with overlapping podSelectors [Feature:NetworkPolicy]"
      [ NewTestStep 81 tcp
          [ .CreatePolicy
              { ObjectMeta := { Name := "allow-client-a-via-ns-selector-81", Namespace := "x" }
                Spec :=
                  { PodSelector := ⟨[("pod", "a")], []⟩
                    Ingress :=
                      [ { From := [ { NamespaceSelector := some ⟨[("ns", "y")], []⟩ } ]
                          Ports := [ { Port := some port81, Protocol := some tcp } ] } ]
                    PolicyTypes := [PolicyTypeIngress] } } ],
        NewTestStep 80 tcp [],
        NewTestStep 80 tcp
          [ .CreatePolicy
              { ObjectMeta := { Name := "allow-client-a-via-ns-selector-80", Namespace := "x" }
                Spec :=
                  { PodSelector := ⟨[("pod", "a")], []⟩
                    Ingress :=
                      [ { From := [ { NamespaceSelector := some ⟨[("ns", "y")], []⟩ } ]
                          Ports := [ { Port := some port80, Protocol := some tcp } ] } ]
                    PolicyTypes := [PolicyTypeIngress] } } ] ],

    NewTestCase "should support allow-all policy"
      [ NewTestStep 80 tcp
          [ .CreatePolicy
              { ObjectMeta := { Name := "allow-all", Namespace := "x" }
                Spec :=
                  { PodSelector := ⟨[], []⟩
                    Ingress := [ {} ]
                    PolicyTypes := [PolicyTypeIngress] } } ],
        NewTestStep 81 tcp [] ],

    NewTestCase "should allow ingress access on one named port"
      [ NewTestStep 81 tcp
          [ .CreatePolicy
              { ObjectMeta := { Name := "allow-all", Namespace := "x" }
                Spec :=
                  { PodSelector := ⟨[], []⟩
                    Ingress :=
                      [ { Ports := [ { Port := some (.FromString "serve-81-tcp") } ] } ]
                    PolicyTypes := [PolicyTypeIngress] } } ],
        NewTestStep 80 tcp [] ],

    NewTestCase "should enforce updated policy"
      [ NewTestStep 81 tcp
          [ .CreatePolicy
              { ObjectMeta := { Name := "allow-all-mutate-to-deny-all", Namespace := "x" }
                Spec :=
                  { PodSelector := ⟨[], []⟩
                    Ingress := [ {} ]
                    PolicyTypes := [PolicyTypeIngress] } } ],
        NewTestStep 81 tcp
          [ .UpdatePolicy
              { ObjectMeta := { Name := "allow-all-mutate-to-deny-all", Namespace := "x" }
                Spec :=
                  { PodSelector := ⟨[], []⟩
                    Ingress := []
                    PolicyTypes := [PolicyTypeIngress] } } ] ],

    NewTestCase "should allow ingress access from updated namespace"
      [ NewTestStep 80 tcp
          [ .CreatePolicy
              { ObjectMeta := { Name := "allow-client-a-via-ns-selector", Namespace := "x" }
                Spec :=
                  { PodSelector := ⟨[("pod", "a")], []⟩
                    Ingress :=
                      [ { From :=
                            [ { NamespaceSelector := some ⟨[("ns2", "updated")], []⟩ } ] } ]
                    PolicyTypes := [PolicyTypeIngress] } } ],
        NewTestStep 80 tcp
          [ .SetNamespaceLabels "y" [("ns", "y"), ("ns2", "updated")] ] ],

    NewTestCase "should allow ingress access from updated pod"
      [ NewTestStep 80 tcp
          [ .CreatePolicy
              { ObjectMeta := { Name := "allow-client-a-via-pod-selector", Namespace := "x" }
                Spec :=
                  { PodSelector := ⟨[("pod", "a")], []⟩
                    Ingress :=
                      [ { From :=
                            [ { PodSelector :=
                                  some ⟨[("pod", "b"), ("pod2", "updated")], []⟩ } ] } ]
                    PolicyTypes := [PolicyTypeIngress] } } ],
        NewTestStep 80 tcp
          [ .SetPodLabels "x" "b" [("pod", "b"), ("pod2", "updated")] ] ],

    NewTestCase "should deny ingress access to updated pod"
      [ NewTestStep 80 tcp
          [ .CreatePolicy
              { ObjectMeta := { Name := "deny-ingress-via-label-selector", Namespace := "x" }
                Spec :=
                  { PodSelector := ⟨[("target", "isolated")], []⟩
                    PolicyTypes := [PolicyTypeIngress]
                    Ingress := [] } } ],
        NewTestStep 80 tcp
          [ .SetPodLabels "x" "a" [("target", "isolated")] ] ],

    NewTestCase "should work with Ingress, Egress specified together"
      [ NewTestStep 80 tcp
          [ .CreatePolicy
              { ObjectMeta := { Name := "allow-client-a-via-pod-selector", Namespace := "x" }
                Spec :=
                  { PodSelector := ⟨[("pod", "a")], []⟩
                    Ingress :=
                      [ { From := [ { PodSelector := some ⟨[("pod", "b")], []⟩ } ] } ]
                    Egress :=
                      [ { Ports :=
                            [ { Port := some (.FromInt 80) },
                              { Protocol := some udp, Port := some (.FromInt 53) } ] } ]
                    PolicyTypes := [PolicyTypeIngress, PolicyTypeEgress] } } ],
        NewTestStep 81 tcp [] ],

    NewTestCase
      "should support denying of egress traffic on the client side (even if the server explicitly allows this traffic)"
      [ NewTestStep 80 tcp
          [ .CreatePolicy
              { ObjectMeta := { Name := "allow-to-ns-y-pod-a", Namespace := "x" }
                Spec :=
                  { PodSelector := ⟨[("pod", "a")], []⟩
                    PolicyTypes := [PolicyTypeEgress]
                    Egress :=
                      [ { To :=
                            [ { NamespaceSelector := some ⟨[("ns", "y")], []⟩
                                PodSelector := some ⟨[("pod", "a")], []⟩ } ] },
                        { Ports :=
                            [ { Protocol := some udp, Port := some (.FromInt 53) } ] } ] } },
            .CreatePolicy
              { ObjectMeta := { Name := "allow-from-xa-on-ya-match-selector", Namespace := "y" }
                Spec :=
                  { PodSelector := ⟨[("pod", "a")], []⟩
                    Ingress :=
                      [ { From :=
                            [ { NamespaceSelector := some ⟨[("ns", "x")], []⟩
                                PodSelector := some ⟨[("pod", "a")], []⟩ } ] } ]
                    PolicyTypes := [PolicyTypeIngress] } },
            .CreatePolicy
              { ObjectMeta := { Name := "allow-from-xa-on-yb-match-selector", Namespace := "y" }
                Spec :=
                  { PodSelector := ⟨[("pod", "b")], []⟩
                    Ingress :=
                      [ { From :=
                            [ { NamespaceSelector := some ⟨[("ns", "x")], []⟩
                                PodSelector := some ⟨[("pod", "a")], []⟩ } ] } ]
                    PolicyTypes := [PolicyTypeIngress] } } ] ],

    NewTestCase "should stop enforcing policies after they are deleted"
      [ NewTestStep 80 tcp
          [ .CreatePolicy
              { ObjectMeta := { Name := "deny-all", Namespace := "x" }
                Spec :=
                  { PodSelector := ⟨[], []⟩
                    PolicyTypes := [PolicyTypeIngress, PolicyTypeEgress]
                    Ingress := []
                    Egress := [] } } ],
        NewTestStep 80 tcp [ .DeletePolicy "x" "deny-all" ] ] ]

/-! ## Reading the fixtures -/

/-- Namespace and name of a policy document. -/
def policyKey (policy : NetworkPolicy) : String × String :=
  (policy.ObjectMeta.Namespace, policy.ObjectMeta.Name)

/-- Policy documents that the create actions of a step carry, in order. -/
def createdPolicies (step : TestStep) : List NetworkPolicy :=
  step.Actions.filterMap fun action =>
    match action with
    | .CreatePolicy policy => some policy
    | _ => none

/-- Namespace and name pairs that the create actions of a step introduce, in order. -/
def createdKeys (step : TestStep) : List (String × String) :=
  (createdPolicies step).map policyKey

/-- Namespace and name pairs that the update and delete actions of a step refer to. -/
def referredKeys (step : TestStep) : List (String × String) :=
  step.Actions.filterMap fun action =>
    match action with
    | .UpdatePolicy policy => some (policyKey policy)
    | .DeletePolicy ns name => some (ns, name)
    | _ => none

/-- Policy of the stacked-policies scenario as the specification words it: in namespace `x`,
selecting the pods labelled `pod=a`, of type ingress, with one ingress rule whose only peer is
the namespaces labelled `ns=y` (no pod selector) and whose only port is the TCP port given;
the name and the port are what the two policies of the scenario differ in. -/
def stackedPolicy (name : String) (port : Int) : NetworkPolicy :=
  { ObjectMeta := { Name := name, Namespace := "x" }
    Spec :=
      { PodSelector := ⟨[("pod", "a")], []⟩
        PolicyTypes := ["Ingress"]
        Ingress :=
          [ { From := [ { PodSelector := none, NamespaceSelector := some ⟨[("ns", "y")], []⟩,
                          IPBlock := none } ]
              Ports := [ { Protocol := some "TCP", Port := some (.FromInt port) } ] } ]
        Egress := [] } }

/-- Allow-all policy of the update scenario as the specification words it: in namespace `x`,
empty pod selector, of type ingress, one ingress rule without peers and without ports. -/
def allowAllPolicy (name : String) : NetworkPolicy :=
  { ObjectMeta := { Name := name, Namespace := "x" }
    Spec :=
      { PodSelector := ⟨[], []⟩
        PolicyTypes := ["Ingress"]
        Ingress := [ { Ports := [], From := [] } ]
        Egress := [] } }

end Generator

namespace Matcher

/-! ## Loops as maps -/

theorem foldl_append_singleton {α β : Type} (f : α → β) (xs : List α) (init : List β) :
    xs.foldl (fun lines x => lines ++ [f x]) init = init ++ xs.map f := by
  induction xs generalizing init with
  | nil => simp
  | cons x xs ih => simp [ih]

theorem foldlM_append_eq_mapM {α β : Type} (g : α → Except String (List β))
    (step : List β → α → Except String (List β))
    (hstep : ∀ lines x, step lines x = (g x).map (fun r => lines ++ r))
    (xs : List α) (init : List β) :
    xs.foldlM step init = (xs.mapM g).map (fun rs => init ++ rs.flatten) := by
  induction xs generalizing init with
  | nil =>
    rw [List.mapM_nil, List.foldlM_nil]
    simp [Except.map, pure, Except.pure]
  | cons x xs ih =>
    rw [List.foldlM_cons, List.mapM_cons, hstep]
    cases hx : g x with
    | error e => simp [Except.map, bind, Except.bind]
    | ok r =>
      simp only [Except.map, bind, Except.bind]
      rw [ih]
      cases hxs : List.mapM g xs with
      | error e => simp [Except.map]
      | ok rs => simp [Except.map, pure, Except.pure, List.append_assoc]

theorem ExplainPortMatcher_specific (Ports : List PortProtocolMatcher) :
    ExplainPortMatcher (.SpecificPortsMatcher Ports) = .ok (Ports.map portLine) := by
  have h : (fun (lines : List String) (port : PortProtocolMatcher) =>
      match port.Port with
      | some p => lines ++ ["port " ++ p.String ++ " on protocol " ++ port.Protocol]
      | none => lines ++ ["all ports on protocol " ++ port.Protocol])
      = fun lines port => lines ++ [portLine port] := by
    funext lines port
    cases hp : port.Port <;> simp [portLine, hp]
  simp only [ExplainPortMatcher, h, foldl_append_singleton, List.nil_append]

theorem explainPodPeerStep_eq (ser : LabelSelector → String) (lines : List String)
    (peer : PodPeerMatcher) :
    explainPodPeerStep ser lines peer = (podPeerLines ser peer).map (fun r => lines ++ r) := by
  unfold explainPodPeerStep podPeerLines
  cases ExplainNamespaceMatcher ser peer.Namespace with
  | error e => rfl
  | ok ns =>
    cases ExplainPodMatcher ser peer.Pod with
    | error e => rfl
    | ok pod =>
      cases ExplainPortMatcher peer.Port with
      | error e => rfl
      | ok ports =>
        simp [Except.map, bind, Except.bind, pure, Except.pure, foldl_append_singleton]

theorem explainIPPeerStep_eq (lines : List String) (ip : IPPeerMatcher) :
    explainIPPeerStep lines ip = (ipPeerLines ip).map (fun r => lines ++ r) := by
  unfold explainIPPeerStep ipPeerLines
  have hlit : "  - " ++ "IPBlock: cidr " = "  - IPBlock: cidr " := by decide
  have hblock : "  - " ++ ("IPBlock: cidr " ++ ip.IPBlock.CIDR ++ ", except "
      ++ fmtStringSlice ip.IPBlock.Except)
      = "  - IPBlock: cidr " ++ ip.IPBlock.CIDR ++ ", except "
        ++ fmtStringSlice ip.IPBlock.Except := by
    rw [← hlit]
    simp only [String.append_assoc]
  cases ExplainPortMatcher ip.PortMatcher with
  | error e => rfl
  | ok ports =>
    simp [Except.map, bind, Except.bind, pure, Except.pure, foldl_append_singleton, hblock]

theorem ExplainInternal_specific (ser : LabelSelector → String) (PodPeers : List PodPeerMatcher) :
    ExplainInternal ser (.SpecificInternalMatcher PodPeers)
      = (PodPeers.mapM (podPeerLines ser)).map List.flatten := by
  simp only [ExplainInternal]
  rw [foldlM_append_eq_mapM (podPeerLines ser) (explainPodPeerStep ser)
    (explainPodPeerStep_eq ser)]
  simp

theorem ExplainEdgePeerPortMatcher_eq (ser : LabelSelector → String) (IP : List IPPeerMatcher)
    (Internal : InternalMatcher) :
    ExplainEdgePeerPortMatcher ser IP Internal = (do
      let peers ← IP.mapM ipPeerLines
      let internal ← ExplainInternal ser Internal
      pure (peers.flatten ++ internal)) := by
  unfold ExplainEdgePeerPortMatcher
  rw [foldlM_append_eq_mapM ipPeerLines explainIPPeerStep explainIPPeerStep_eq]
  cases List.mapM ipPeerLines IP with
  | error e => rfl
  | ok peers => simp [Except.map, bind, Except.bind]

/-- Layout of a target block: primary key, source-rule lines, edge lines, empty line. -/
theorem ExplainTarget_layout (ser : LabelSelector → String) (target : Target)
    (isIngress : Bool) :
    ExplainTarget ser target isIngress
      = (edgeLines ser target.Edge isIngress).map
          (fun e => target.GetPrimaryKey :: (sourceRuleLines target.SourceRules ++ e ++ [""])) := by
  obtain ⟨pk, rules, edge⟩ := target
  have hsrc : (if rules.length ≠ 0 then
        rules.foldl (fun lines sr => lines ++ ["    " ++ sr.Namespace ++ "/" ++ sr.Name])
          (([] : List String) ++ [pk] ++ ["  source rules:"])
      else ([] : List String) ++ [pk]) = pk :: sourceRuleLines rules := by
    cases rules with
    | nil => simp [sourceRuleLines]
    | cons r rs => simp [sourceRuleLines, foldl_append_singleton]
  simp only [ExplainTarget, Target.GetPrimaryKey]
  rw [hsrc]
  cases edge with
  | NoneEdgeMatcher => simp [edgeLines, Except.map, bind, Except.bind, pure, Except.pure]
  | AllEdgeMatcher => simp [edgeLines, Except.map, bind, Except.bind, pure, Except.pure]
  | SpecificEdgeMatcher IP Internal =>
    simp only [edgeLines]
    rw [ExplainEdgePeerPortMatcher_eq]
    cases List.mapM ipPeerLines IP with
    | error e => rfl
    | ok peers =>
      cases ExplainInternal ser Internal with
      | error e => rfl
      | ok internal => simp [Except.map, bind, Except.bind, pure, Except.pure]
  | Other goType => simp [edgeLines, Except.map, bind, Except.bind, throw, throwThe,
      MonadExceptOf.throw]

/-- The two loops of `Explain` collect the target blocks in order, ingress first. -/
theorem Explain_layout (ser : LabelSelector → String) (policies : Policy) :
    Explain ser policies = (do
      let ingress ← policies.Ingress.mapM (fun t => ExplainTarget ser t true)
      let egress ← policies.Egress.mapM (fun t => ExplainTarget ser t false)
      pure ("\n".intercalate (ingress.flatten ++ egress.flatten))) := by
  unfold Explain
  rw [foldlM_append_eq_mapM (fun t => ExplainTarget ser t true)]
  · cases List.mapM (fun t => ExplainTarget ser t true) policies.Ingress with
    | error e => rfl
    | ok ingress =>
      simp only [Except.map, bind, Except.bind, List.nil_append]
      rw [foldlM_append_eq_mapM (fun t => ExplainTarget ser t false)]
      · cases List.mapM (fun t => ExplainTarget ser t false) policies.Egress with
        | error e => rfl
        | ok egress => rfl
      · intro lines t
        cases ExplainTarget ser t false <;> rfl
  · intro lines t
    cases ExplainTarget ser t true <;> rfl

/-! ## Rendering succeeds on known variants -/

theorem mapM_ok_of_forall {α β : Type} (g : α → Except String β) (xs : List α)
    (h : ∀ x ∈ xs, ∃ r, g x = .ok r) : ∃ rs, xs.mapM g = .ok rs := by
  induction xs with
  | nil => exact ⟨[], by rw [List.mapM_nil]; rfl⟩
  | cons x xs ih =>
    obtain ⟨r, hr⟩ := h x (List.mem_cons_self x xs)
    obtain ⟨rs, hrs⟩ := ih (fun y hy => h y (List.mem_cons_of_mem x hy))
    exact ⟨r :: rs, by rw [List.mapM_cons, hr, hrs]; rfl⟩

theorem mapM_ok_forall₂ {α β : Type} (g : α → Except String β) (xs : List α) (rs : List β)
    (h : xs.mapM g = .ok rs) : List.Forall₂ (fun x r => g x = .ok r) xs rs := by
  induction xs generalizing rs with
  | nil =>
    rw [List.mapM_nil] at h
    cases h
    exact List.Forall₂.nil
  | cons x xs ih =>
    rw [List.mapM_cons] at h
    cases hx : g x with
    | error e =>
      rw [hx] at h
      cases h
    | ok r =>
      rw [hx] at h
      cases hxs : List.mapM g xs with
      | error e =>
        rw [hxs] at h
        cases h
      | ok rs' =>
        rw [hxs] at h
        cases h
        exact List.Forall₂.cons hx (ih rs' hxs)

theorem ExplainPortMatcher_ok_of_known (pm : PortMatcher) (h : pm.Known = true) :
    ∃ lines, ExplainPortMatcher pm = .ok lines := by
  cases pm with
  | AllPortsMatcher => exact ⟨_, rfl⟩
  | SpecificPortsMatcher Ports => exact ⟨_, rfl⟩
  | Other goType => simp [PortMatcher.Known] at h

theorem ExplainPodMatcher_ok_of_known (ser : LabelSelector → String) (pm : PodMatcher)
    (h : pm.Known = true) : ∃ phrase, ExplainPodMatcher ser pm = .ok phrase := by
  cases pm with
  | AllPodsMatcher => exact ⟨_, rfl⟩
  | LabelSelectorPodMatcher Selector => exact ⟨_, rfl⟩
  | Other goType => simp [PodMatcher.Known] at h

theorem ExplainNamespaceMatcher_ok_of_known (ser : LabelSelector → String)
    (pm : NamespaceMatcher) (h : pm.Known = true) :
    ∃ phrase, ExplainNamespaceMatcher ser pm = .ok phrase := by
  cases pm with
  | AllNamespacesMatcher => exact ⟨_, rfl⟩
  | ExactNamespaceMatcher Namespace => exact ⟨_, rfl⟩
  | LabelSelectorNamespaceMatcher Selector => exact ⟨_, rfl⟩
  | Other goType => simp [NamespaceMatcher.Known] at h

theorem podPeerLines_ok_of_known (ser : LabelSelector → String) (peer : PodPeerMatcher)
    (h : peer.Known = true) : ∃ lines, podPeerLines ser peer = .ok lines := by
  simp only [PodPeerMatcher.Known, Bool.and_eq_true] at h
  obtain ⟨ns, hns⟩ := ExplainNamespaceMatcher_ok_of_known ser peer.Namespace h.1.1
  obtain ⟨pod, hpod⟩ := ExplainPodMatcher_ok_of_known ser peer.Pod h.1.2
  obtain ⟨ports, hports⟩ := ExplainPortMatcher_ok_of_known peer.Port h.2
  exact ⟨_, by simp only [podPeerLines, hns, hpod, hports]; rfl⟩

theorem ipPeerLines_ok_of_known (ip : IPPeerMatcher) (h : ip.PortMatcher.Known = true) :
    ∃ lines, ipPeerLines ip = .ok lines := by
  obtain ⟨ports, hports⟩ := ExplainPortMatcher_ok_of_known ip.PortMatcher h
  exact ⟨_, by simp only [ipPeerLines, hports]; rfl⟩

theorem ExplainInternal_ok_of_known (ser : LabelSelector → String) (i : InternalMatcher)
    (h : i.Known = true) : ∃ lines, ExplainInternal ser i = .ok lines := by
  cases i with
  | AllInternalMatcher => exact ⟨_, rfl⟩
  | SpecificInternalMatcher PodPeers =>
    simp only [InternalMatcher.Known, List.all_eq_true] at h
    obtain ⟨rs, hrs⟩ := mapM_ok_of_forall (podPeerLines ser) PodPeers
      (fun peer hp => podPeerLines_ok_of_known ser peer (h peer hp))
    exact ⟨rs.flatten, by rw [ExplainInternal_specific, hrs]; rfl⟩
  | Other goType => simp [InternalMatcher.Known] at h

theorem edgeLines_ok_of_known (ser : LabelSelector → String) (edge : EdgeMatcher)
    (isIngress : Bool) (h : edge.Known = true) :
    ∃ lines, edgeLines ser edge isIngress = .ok lines := by
  cases edge with
  | NoneEdgeMatcher => exact ⟨_, rfl⟩
  | AllEdgeMatcher => exact ⟨_, rfl⟩
  | SpecificEdgeMatcher IP Internal =>
    simp only [EdgeMatcher.Known, Bool.and_eq_true, List.all_eq_true] at h
    obtain ⟨peers, hpeers⟩ := mapM_ok_of_forall ipPeerLines IP
      (fun ip hip => ipPeerLines_ok_of_known ip (h.1 ip hip))
    obtain ⟨internal, hinternal⟩ := ExplainInternal_ok_of_known ser Internal h.2
    exact ⟨_, by simp only [edgeLines, hpeers, hinternal]; rfl⟩
  | Other goType => simp [EdgeMatcher.Known] at h

theorem ExplainTarget_ok_of_known (ser : LabelSelector → String) (target : Target)
    (isIngress : Bool) (h : target.Known = true) :
    ∃ lines, ExplainTarget ser target isIngress = .ok lines := by
  obtain ⟨e, he⟩ := edgeLines_ok_of_known ser target.Edge isIngress h
  exact ⟨_, by rw [ExplainTarget_layout, he]; rfl⟩

theorem Explain_ok_of_known (ser : LabelSelector → String) (policies : Policy)
    (h : policies.Known = true) : ∃ s, Explain ser policies = .ok s := by
  simp only [Policy.Known, Bool.and_eq_true, List.all_eq_true] at h
  obtain ⟨ingress, hin⟩ := mapM_ok_of_forall (fun t => ExplainTarget ser t true)
    policies.Ingress (fun t ht => ExplainTarget_ok_of_known ser t true (h.1 t ht))
  obtain ⟨egress, heg⟩ := mapM_ok_of_forall (fun t => ExplainTarget ser t false)
    policies.Egress (fun t ht => ExplainTarget_ok_of_known ser t false (h.2 t ht))
  exact ⟨_, by rw [Explain_layout, hin, heg]; rfl⟩

/-! ## Sizes and first lines -/

theorem podPeerLines_length (ser : LabelSelector → String) (peer : PodPeerMatcher)
    (r : List String) (h : podPeerLines ser peer = .ok r) :
    r.length = 1 + portLineCount peer.Port := by
  unfold podPeerLines at h
  unfold portLineCount
  cases hns : ExplainNamespaceMatcher ser peer.Namespace with
  | error e => rw [hns] at h; cases h
  | ok ns =>
    cases hpod : ExplainPodMatcher ser peer.Pod with
    | error e => rw [hns, hpod] at h; cases h
    | ok pod =>
      cases hports : ExplainPortMatcher peer.Port with
      | error e => rw [hns, hpod, hports] at h; cases h
      | ok ports =>
        rw [hns, hpod, hports] at h
        cases h
        simp [Nat.add_comm]

theorem flatten_length_of_forall₂ {α β : Type} (P : α → List β → Prop) (size : α → Nat)
    (hsize : ∀ x r, P x r → r.length = size x) (xs : List α) (rs : List (List β))
    (h : List.Forall₂ P xs rs) : rs.flatten.length = (xs.map size).sum := by
  induction h with
  | nil => rfl
  | cons hxr _ ih => simp [hsize _ _ hxr, ih]

theorem edgeLines_ne_nil (ser : LabelSelector → String) (edge : EdgeMatcher)
    (isIngress : Bool) (e : List String) (h : edgeLines ser edge isIngress = .ok e) :
    e ≠ [] := by
  cases edge with
  | NoneEdgeMatcher => simp only [edgeLines] at h; cases h; simp
  | AllEdgeMatcher => simp only [edgeLines] at h; cases h; simp
  | SpecificEdgeMatcher IP Internal =>
    simp only [edgeLines] at h
    cases hp : List.mapM ipPeerLines IP with
    | error e => rw [hp] at h; cases h
    | ok peers =>
      cases hi : ExplainInternal ser Internal with
      | error e => rw [hp, hi] at h; cases h
      | ok internal => rw [hp, hi] at h; cases h; simp
  | Other goType => simp only [edgeLines] at h; cases h

theorem ExplainTarget_block (ser : LabelSelector → String) (target : Target)
    (isIngress : Bool) (lines : List String)
    (h : ExplainTarget ser target isIngress = .ok lines) :
    ∃ middle, middle ≠ [] ∧ lines = target.GetPrimaryKey :: (middle ++ [""]) := by
  rw [ExplainTarget_layout] at h
  cases he : edgeLines ser target.Edge isIngress with
  | error e => rw [he] at h; cases h
  | ok e =>
    rw [he] at h
    cases h
    exact ⟨sourceRuleLines target.SourceRules ++ e,
      by simp [edgeLines_ne_nil ser target.Edge isIngress e he], rfl⟩

theorem forall₂_blocks (ser : LabelSelector → String) (isIngress : Bool)
    (targets : List Target) (blocks : List (List String))
    (h : List.Forall₂ (fun t block => ExplainTarget ser t isIngress = .ok block) targets blocks) :
    ∃ middles : List (List String),
      List.Forall₂ (fun t middle =>
          ExplainTarget ser t isIngress = .ok (t.GetPrimaryKey :: (middle ++ [""])))
        targets middles
      ∧ blocks = List.zipWith (fun t middle => t.GetPrimaryKey :: (middle ++ [""]))
          targets middles := by
  induction h with
  | nil => exact ⟨[], List.Forall₂.nil, rfl⟩
  | cons hab _ ih =>
    obtain ⟨middles, hm, hz⟩ := ih
    obtain ⟨middle, _, hmid⟩ := ExplainTarget_block ser _ isIngress _ hab
    refine ⟨middle :: middles, List.Forall₂.cons (hmid ▸ hab) hm, ?_⟩
    simp [hz, hmid]

theorem forall₂_exists_of_mem {α β : Type} (R : α → β → Prop) (xs : List α) (ys : List β)
    (h : List.Forall₂ R xs ys) (x : α) (hx : x ∈ xs) : ∃ y ∈ ys, R x y := by
  induction h with
  | nil => cases hx
  | cons hab _ ih =>
    rcases List.mem_cons.mp hx with rfl | hmem
    · exact ⟨_, List.mem_cons_self _ _, hab⟩
    · obtain ⟨y, hy, hr⟩ := ih hmem
      exact ⟨y, List.mem_cons_of_mem _ hy, hr⟩

theorem forall₂_forall_right {α β : Type} (R : α → β → Prop) (xs : List α) (ys : List β)
    (h : List.Forall₂ R xs ys) (y : β) (hy : y ∈ ys) : ∃ x ∈ xs, R x y := by
  induction h with
  | nil => cases hy
  | cons hab _ ih =>
    rcases List.mem_cons.mp hy with rfl | hmem
    · exact ⟨_, List.mem_cons_self _ _, hab⟩
    · obtain ⟨x, hx, hr⟩ := ih hmem
      exact ⟨x, List.mem_cons_of_mem _ hx, hr⟩

/-! ## Joining lines -/

theorem intercalate_go_append (acc sep : String) (xs ys : List String) :
    String.intercalate.go acc sep (xs ++ ys)
      = String.intercalate.go (String.intercalate.go acc sep xs) sep ys := by
  induction xs generalizing acc with
  | nil => rfl
  | cons x xs ih => exact ih (acc ++ sep ++ x)

theorem intercalate_concat (sep : String) (xs : List String) (hx : xs ≠ []) (y : String) :
    sep.intercalate (xs ++ [y]) = sep.intercalate xs ++ sep ++ y := by
  cases xs with
  | nil => exact absurd rfl hx
  | cons x xs =>
    show String.intercalate.go x sep (xs ++ [y]) = String.intercalate.go x sep xs ++ sep ++ y
    rw [intercalate_go_append]
    rfl

theorem intercalate_go_extends (sep : String) (xs : List String) (acc : String) :
    ∃ post, String.intercalate.go acc sep xs = acc ++ post := by
  induction xs generalizing acc with
  | nil => exact ⟨"", by simp [String.intercalate.go]⟩
  | cons a as ih =>
    obtain ⟨post, hpost⟩ := ih (acc ++ sep ++ a)
    exact ⟨sep ++ a ++ post, by
      show String.intercalate.go (acc ++ sep ++ a) sep as = _
      rw [hpost]; simp only [String.append_assoc]⟩

theorem intercalate_go_mem (sep x : String) (xs : List String) (hx : x ∈ xs) (acc : String) :
    ∃ pre post, String.intercalate.go acc sep xs = pre ++ x ++ post := by
  induction xs generalizing acc with
  | nil => cases hx
  | cons a as ih =>
    rcases List.mem_cons.mp hx with rfl | hmem
    · obtain ⟨post, hpost⟩ := intercalate_go_extends sep as (acc ++ sep ++ x)
      exact ⟨acc ++ sep, post, by
        show String.intercalate.go (acc ++ sep ++ x) sep as = _
        rw [hpost]⟩
    · exact ih hmem (acc ++ sep ++ a)

theorem intercalate_mem (sep x : String) (xs : List String) (hx : x ∈ xs) :
    ∃ pre post, sep.intercalate xs = pre ++ x ++ post := by
  cases xs with
  | nil => cases hx
  | cons a as =>
    rcases List.mem_cons.mp hx with rfl | hmem
    · obtain ⟨post, hpost⟩ := intercalate_go_extends sep as x
      exact ⟨"", post, by
        show String.intercalate.go x sep as = _
        rw [hpost]; simp⟩
    · exact intercalate_go_mem sep x as hmem a

/-- A non-empty run of blocks that each end with the empty line ends with the empty line,
after at least one other line. -/
theorem flatten_blocks_concat (blocks : List (List String)) (hne : blocks ≠ [])
    (h : ∀ block ∈ blocks, ∃ (pk : String) (middle : List String), block = pk :: (middle ++ [""])) :
    ∃ front, front ≠ [] ∧ blocks.flatten = front ++ [""] := by
  obtain ⟨init, last, rfl⟩ : ∃ init last, blocks = init ++ [last] := by
    rcases List.eq_nil_or_concat blocks with hnil | ⟨init, last, hcat⟩
    · exact absurd hnil hne
    · exact ⟨init, last, by simpa using hcat⟩
  obtain ⟨pk, middle, rfl⟩ := h last (by simp)
  exact ⟨init.flatten ++ pk :: middle, by simp, by simp⟩

/-- A line of a block of a target of the policy occurs in the explanation. -/
theorem Explain_contains_line (ser : LabelSelector → String) (policies : Policy) (s : String)
    (h : Explain ser policies = .ok s) (line : String)
    (hline : (∃ t ∈ policies.Ingress, ∃ block, ExplainTarget ser t true = .ok block ∧ line ∈ block)
      ∨ (∃ t ∈ policies.Egress, ∃ block, ExplainTarget ser t false = .ok block ∧ line ∈ block)) :
    ∃ pre post, s = pre ++ line ++ post := by
  rw [Explain_layout] at h
  cases hin : List.mapM (fun t => ExplainTarget ser t true) policies.Ingress with
  | error e => rw [hin] at h; cases h
  | ok inBlocks =>
    cases heg : List.mapM (fun t => ExplainTarget ser t false) policies.Egress with
    | error e => rw [hin, heg] at h; cases h
    | ok egBlocks =>
      rw [hin, heg] at h
      cases h
      apply intercalate_mem
      rcases hline with ⟨t, ht, block, hb, hl⟩ | ⟨t, ht, block, hb, hl⟩
      · obtain ⟨block', hmem, hb'⟩ :=
          forall₂_exists_of_mem _ _ _ (mapM_ok_forall₂ _ _ _ hin) t ht
        have hbb : block' = block := by
          have hb2 : ExplainTarget ser t true = .ok block' := hb'
          rw [hb] at hb2
          cases hb2
          rfl
        subst hbb
        exact List.mem_append_left _ (List.mem_flatten.mpr ⟨block', hmem, hl⟩)
      · obtain ⟨block', hmem, hb'⟩ :=
          forall₂_exists_of_mem _ _ _ (mapM_ok_forall₂ _ _ _ heg) t ht
        have hbb : block' = block := by
          have hb2 : ExplainTarget ser t false = .ok block' := hb'
          rw [hb] at hb2
          cases hb2
          rfl
        subst hbb
        exact List.mem_append_right _ (List.mem_flatten.mpr ⟨block', hmem, hl⟩)

/-- A primary key line of one direction is a primary key line of another direction only
when the directions agree. -/
theorem primaryKeyLine_direction (direction isIngress : Bool) (ns selector : String) :
    IsPrimaryKeyLine isIngress (primaryKeyLine direction ns selector) ↔ direction = isIngress := by
  constructor
  · rintro ⟨ns2, selector2, h⟩
    have hdata := congrArg String.data h
    cases direction <;> cases isIngress <;>
      simp [primaryKeyLine, targetType, String.data_append] at hdata ⊢
  · rintro rfl
    exact ⟨ns, selector, rfl⟩

/-- A text behind two spaces inside a string occurs in that string. -/
theorem containsText_of_indented (pre post sub : String) :
    ContainsText (pre ++ ("  " ++ sub) ++ post) sub := by
  refine ⟨pre.data ++ [' ', ' '], post.data, ?_⟩
  simp [String.data_append]

/-! ## Shape of the lines -/

theorem startsWithTwoSpaces_append (a b : String) (h : StartsWithTwoSpaces a) :
    StartsWithTwoSpaces (a ++ b) := by
  unfold StartsWithTwoSpaces at h ⊢
  rw [String.data_append]
  exact h.trans (List.prefix_append _ _)

theorem startsWithTwoSpaces_ne_empty (line : String) (h : StartsWithTwoSpaces line) :
    line ≠ "" := by
  rintro rfl
  obtain ⟨rest, hrest⟩ := h
  simp at hrest

theorem sourceRuleLines_start (rules : List SourceRule) :
    ∀ line ∈ sourceRuleLines rules, StartsWithTwoSpaces line := by
  intro line hline
  cases rules with
  | nil => simp [sourceRuleLines] at hline
  | cons r rs =>
    simp only [sourceRuleLines, List.mem_cons, List.mem_map] at hline
    rcases hline with rfl | ⟨sr, _, rfl⟩
    · decide
    · exact startsWithTwoSpaces_append _ _
        (startsWithTwoSpaces_append _ _ (startsWithTwoSpaces_append _ _ (by decide)))

theorem ipPeerLines_start (ip : IPPeerMatcher) (lines : List String)
    (h : ipPeerLines ip = .ok lines) : ∀ line ∈ lines, StartsWithTwoSpaces line := by
  unfold ipPeerLines at h
  cases hp : ExplainPortMatcher ip.PortMatcher with
  | error e => rw [hp] at h; cases h
  | ok ports =>
    rw [hp] at h
    cases h
    intro line hline
    simp only [List.mem_cons, List.mem_map] at hline
    rcases hline with rfl | ⟨port, _, rfl⟩
    · exact startsWithTwoSpaces_append _ _
        (startsWithTwoSpaces_append _ _ (startsWithTwoSpaces_append _ _ (by decide)))
    · exact startsWithTwoSpaces_append _ _ (by decide)

theorem podPeerLines_start (ser : LabelSelector → String) (peer : PodPeerMatcher)
    (lines : List String) (h : podPeerLines ser peer = .ok lines) :
    ∀ line ∈ lines, StartsWithTwoSpaces line := by
  unfold podPeerLines at h
  cases hns : ExplainNamespaceMatcher ser peer.Namespace with
  | error e => rw [hns] at h; cases h
  | ok ns =>
    cases hpod : ExplainPodMatcher ser peer.Pod with
    | error e => rw [hns, hpod] at h; cases h
    | ok pod =>
      cases hports : ExplainPortMatcher peer.Port with
      | error e => rw [hns, hpod, hports] at h; cases h
      | ok ports =>
        rw [hns, hpod, hports] at h
        cases h
        intro line hline
        simp only [List.mem_cons, List.mem_map] at hline
        rcases hline with rfl | ⟨port, _, rfl⟩
        · exact startsWithTwoSpaces_append _ _
            (startsWithTwoSpaces_append _ _ (startsWithTwoSpaces_append _ _ (by decide)))
        · exact startsWithTwoSpaces_append _ _ (by decide)

theorem flatten_start_of_forall₂ {α : Type} (g : α → Except String (List String))
    (hg : ∀ x lines, g x = .ok lines → ∀ line ∈ lines, StartsWithTwoSpaces line)
    (xs : List α) (rs : List (List String)) (h : xs.mapM g = .ok rs) :
    ∀ line ∈ rs.flatten, StartsWithTwoSpaces line := by
  intro line hline
  obtain ⟨block, hblock, hmem⟩ := List.mem_flatten.mp hline
  obtain ⟨x, _, hx⟩ := forall₂_forall_right _ _ _ (mapM_ok_forall₂ _ _ _ h) block hblock
  exact hg x block hx line hmem

theorem ExplainInternal_start (ser : LabelSelector → String) (i : InternalMatcher)
    (lines : List String) (h : ExplainInternal ser i = .ok lines) :
    ∀ line ∈ lines, StartsWithTwoSpaces line := by
  cases i with
  | AllInternalMatcher =>
    simp only [ExplainInternal] at h
    cases h
    intro line hline
    simp only [List.nil_append, List.mem_singleton] at hline
    subst hline
    decide
  | SpecificInternalMatcher PodPeers =>
    rw [ExplainInternal_specific] at h
    cases hrs : List.mapM (podPeerLines ser) PodPeers with
    | error e => rw [hrs] at h; cases h
    | ok rs =>
      rw [hrs] at h
      cases h
      exact flatten_start_of_forall₂ _ (podPeerLines_start ser) _ _ hrs
  | Other goType =>
    simp only [ExplainInternal] at h
    cases h
    intro line hline
    cases hline

theorem edgeLines_start (ser : LabelSelector → String) (edge : EdgeMatcher)
    (isIngress : Bool) (lines : List String) (h : edgeLines ser edge isIngress = .ok lines) :
    ∀ line ∈ lines, StartsWithTwoSpaces line := by
  cases edge with
  | NoneEdgeMatcher =>
    simp only [edgeLines] at h
    cases h
    intro line hline
    simp only [List.mem_singleton] at hline
    subst hline
    exact startsWithTwoSpaces_append _ _ (startsWithTwoSpaces_append _ _ (by decide))
  | AllEdgeMatcher =>
    simp only [edgeLines] at h
    cases h
    intro line hline
    simp only [List.mem_singleton] at hline
    subst hline
    exact startsWithTwoSpaces_append _ _ (startsWithTwoSpaces_append _ _ (by decide))
  | SpecificEdgeMatcher IP Internal =>
    simp only [edgeLines] at h
    cases hp : List.mapM ipPeerLines IP with
    | error e => rw [hp] at h; cases h
    | ok peers =>
      cases hi : ExplainInternal ser Internal with
      | error e => rw [hp, hi] at h; cases h
      | ok internal =>
        rw [hp, hi] at h
        cases h
        intro line hline
        simp only [List.mem_cons, List.mem_append] at hline
        rcases hline with rfl | hline | hline
        · exact startsWithTwoSpaces_append _ _ (startsWithTwoSpaces_append _ _ (by decide))
        · exact flatten_start_of_forall₂ _ ipPeerLines_start _ _ hp line hline
        · exact ExplainInternal_start ser Internal internal hi line hline
  | Other goType => simp only [edgeLines] at h; cases h

/-- Shape of a returned block: the primary key, a non-empty middle whose lines all start with
two spaces, and the empty line. -/
theorem ExplainTarget_shape (ser : LabelSelector → String) (target : Target)
    (isIngress : Bool) (lines : List String)
    (h : ExplainTarget ser target isIngress = .ok lines) :
    ∃ middle, lines = [target.GetPrimaryKey] ++ middle ++ [""] ∧ middle ≠ []
      ∧ ∀ line ∈ middle, StartsWithTwoSpaces line := by
  rw [ExplainTarget_layout] at h
  cases he : edgeLines ser target.Edge isIngress with
  | error e => rw [he] at h; cases h
  | ok e =>
    rw [he] at h
    cases h
    refine ⟨sourceRuleLines target.SourceRules ++ e, by simp,
      by simp [edgeLines_ne_nil ser target.Edge isIngress e he], ?_⟩
    intro line hline
    rcases List.mem_append.mp hline with hl | hl
    · exact sourceRuleLines_start _ line hl
    · exact edgeLines_start ser target.Edge isIngress e he line hl

theorem cutAfterBlank_block (front rest : List String) (h : "" ∉ front) :
    cutAfterBlank (front ++ [""] ++ rest) = (front ++ [""]) :: cutAfterBlank rest := by
  induction front with
  | nil => simp [cutAfterBlank]
  | cons a f ih =>
    have ha : a ≠ "" := fun hh => h (hh ▸ List.mem_cons_self _ _)
    have hf : "" ∉ f := fun hh => h (List.mem_cons_of_mem _ hh)
    show cutAfterBlank (a :: (f ++ [""] ++ rest)) = (a :: (f ++ [""])) :: cutAfterBlank rest
    rw [cutAfterBlank, if_neg ha, ih hf]

/-- Blocks that each end with their only empty line are recovered from their concatenation
by cutting after each empty line. -/
theorem cutAfterBlank_flatten (blocks : List (List String))
    (h : ∀ block ∈ blocks, ∃ front, block = front ++ [""] ∧ "" ∉ front) :
    cutAfterBlank blocks.flatten = blocks := by
  induction blocks with
  | nil => rfl
  | cons block blocks ih =>
    obtain ⟨front, rfl, hfront⟩ := h _ (List.mem_cons_self _ _)
    rw [List.flatten_cons, cutAfterBlank_block front _ hfront,
      ih (fun b hb => h b (List.mem_cons_of_mem _ hb))]

/-! ## Telling the lines of a block apart -/

theorem append_cons_split_unique {α : Type} (P : α → Prop) (xs ys : List α) (a b : α)
    (u v : List α) (hx : ∀ x ∈ xs, P x) (hy : ∀ y ∈ ys, P y) (ha : ¬ P a) (hb : ¬ P b)
    (h : xs ++ a :: u = ys ++ b :: v) : xs = ys ∧ a = b ∧ u = v := by
  induction xs generalizing ys with
  | nil =>
    cases ys with
    | nil =>
      simp only [List.nil_append, List.cons.injEq] at h
      exact ⟨rfl, h.1, h.2⟩
    | cons y ys =>
      simp only [List.nil_append, List.cons_append, List.cons.injEq] at h
      exact absurd (h.1 ▸ hy y (List.mem_cons_self _ _)) ha
  | cons x xs ih =>
    cases ys with
    | nil =>
      simp only [List.nil_append, List.cons_append, List.cons.injEq] at h
      exact absurd (h.1 ▸ hx x (List.mem_cons_self _ _)) hb
    | cons y ys =>
      simp only [List.cons_append, List.cons.injEq] at h
      obtain ⟨hxy, hau, huv⟩ := ih ys (fun z hz => hx z (List.mem_cons_of_mem _ hz))
        (fun z hz => hy z (List.mem_cons_of_mem _ hz)) h.2
      exact ⟨by rw [h.1, hxy], hau, huv⟩

theorem sourceRuleLines_section (rules : List SourceRule) :
    ∀ line ∈ sourceRuleLines rules, IsSourceSectionLine line := by
  intro line hline
  cases rules with
  | nil => simp [sourceRuleLines] at hline
  | cons r rs =>
    simp only [sourceRuleLines, List.mem_cons, List.mem_map] at hline
    rcases hline with rfl | ⟨sr, _, rfl⟩
    · exact Or.inr (by decide)
    · exact Or.inl (by simp [String.data_append])

theorem sourceRuleLines_length_eq (r1 r2 : List SourceRule)
    (h : sourceRuleLines r1 = sourceRuleLines r2) : r1.length = r2.length := by
  have hlen := congrArg List.length h
  cases r1 <;> cases r2 <;> simp [sourceRuleLines] at hlen ⊢
  exact hlen

theorem edgeLine_not_section (edge : EdgeMatcher) (isIngress : Bool) (line : String)
    (h : edgeLine edge isIngress = some line) : ¬ IsSourceSectionLine line := by
  cases edge <;> cases isIngress <;> simp [edgeLine, targetType] at h <;>
    (subst h; simp [IsSourceSectionLine, String.data_append])

theorem edgeLines_head (ser : LabelSelector → String) (edge : EdgeMatcher)
    (isIngress : Bool) (e : List String) (h : edgeLines ser edge isIngress = .ok e) :
    ∃ line rest, edgeLine edge isIngress = some line ∧ e = line :: rest := by
  cases edge with
  | NoneEdgeMatcher => simp only [edgeLines] at h; cases h; exact ⟨_, _, rfl, rfl⟩
  | AllEdgeMatcher => simp only [edgeLines] at h; cases h; exact ⟨_, _, rfl, rfl⟩
  | SpecificEdgeMatcher IP Internal =>
    simp only [edgeLines] at h
    cases hp : List.mapM ipPeerLines IP with
    | error e => rw [hp] at h; cases h
    | ok peers =>
      cases hi : ExplainInternal ser Internal with
      | error e => rw [hp, hi] at h; cases h
      | ok internal => rw [hp, hi] at h; cases h; exact ⟨_, _, rfl, rfl⟩
  | Other goType => simp only [edgeLines] at h; cases h

/-- The edge line tells the direction and the type of the edge. -/
theorem edgeLine_inj (e1 e2 : EdgeMatcher) (d1 d2 : Bool) (line : String)
    (h1 : edgeLine e1 d1 = some line) (h2 : edgeLine e2 d2 = some line) :
    d1 = d2
    ∧ ((e1 = .NoneEdgeMatcher ∧ e2 = .NoneEdgeMatcher)
      ∨ (e1 = .AllEdgeMatcher ∧ e2 = .AllEdgeMatcher)
      ∨ ((∃ IP Internal, e1 = .SpecificEdgeMatcher IP Internal)
        ∧ ∃ IP Internal, e2 = .SpecificEdgeMatcher IP Internal)) := by
  have h := h1.trans h2.symm
  cases e1 <;> cases e2 <;> cases d1 <;> cases d2 <;>
    simp [edgeLine, targetType] at h h1 ⊢

/-! ## Claims on the layout of the explanation -/

/-- C1: `Explain` returns the target blocks joined with a newline: the blocks
`ExplainTarget t true` of the ingress targets in list order, then the blocks
`ExplainTarget t false` of the egress targets in list order; it fails exactly when one of
these blocks fails, with the first failure in that order. -/
theorem C1_Explain_joins_blocks_ingress_then_egress (ser : LabelSelector → String)
    (policies : Policy) :
    Explain ser policies = (do
      let ingress ← policies.Ingress.mapM (fun t => ExplainTarget ser t true)
      let egress ← policies.Egress.mapM (fun t => ExplainTarget ser t false)
      pure ("\n".intercalate (ingress.flatten ++ egress.flatten))) :=
  Explain_layout ser policies

/-- C2: a target whose edge is `NoneEdgeMatcher` is explained as exactly its primary key
line, its source-rule lines, the line `  all <direction> blocked` and the empty line; a
target whose edge is `AllEdgeMatcher` the same with `allowed`; the direction is `ingress`
when `isIngress` holds and `egress` otherwise. -/
theorem C2_ExplainTarget_none_and_all_edge (ser : LabelSelector → String) (target : Target)
    (isIngress : Bool) :
    (target.Edge = .NoneEdgeMatcher →
      ExplainTarget ser target isIngress
        = .ok (target.GetPrimaryKey :: (sourceRuleLines target.SourceRules
            ++ ["  all " ++ (if isIngress then "ingress" else "egress") ++ " blocked", ""])))
    ∧ (target.Edge = .AllEdgeMatcher →
      ExplainTarget ser target isIngress
        = .ok (target.GetPrimaryKey :: (sourceRuleLines target.SourceRules
            ++ ["  all " ++ (if isIngress then "ingress" else "egress") ++ " allowed", ""]))) := by
  constructor <;> intro h <;> rw [ExplainTarget_layout, h] <;>
    simp [edgeLines, Except.map, targetType]

/-- Witness of C2 on an ingress target without edge and an egress target with the
all-edge. -/
theorem C2_ExplainTarget_none_and_all_edge_witness :
    ExplainTarget (fun _ => "") ⟨"k", [⟨"x", "deny"⟩], .NoneEdgeMatcher⟩ true
        = .ok ["k", "  source rules:", "    x/deny", "  all ingress blocked", ""]
    ∧ ExplainTarget (fun _ => "") ⟨"k", [], .AllEdgeMatcher⟩ false
        = .ok ["k", "  all egress allowed", ""] :=
  ⟨(C2_ExplainTarget_none_and_all_edge (fun _ => "")
      ⟨"k", [⟨"x", "deny"⟩], .NoneEdgeMatcher⟩ true).1 rfl,
   (C2_ExplainTarget_none_and_all_edge (fun _ => "") ⟨"k", [], .AllEdgeMatcher⟩ false).2 rfl⟩

/-- C3: for a target with edge `SpecificEdgeMatcher IP Internal` the lines between the
source-rule lines and the closing empty line are the line `  <direction>:`, then for each IP
peer in list order its `IPBlock` line followed by its port lines behind four spaces
(`ipPeerLines`), then the lines of `ExplainInternal Internal`. -/
theorem C3_ExplainTarget_specific_edge (ser : LabelSelector → String) (target : Target)
    (isIngress : Bool) (IP : List IPPeerMatcher) (Internal : InternalMatcher)
    (h : target.Edge = .SpecificEdgeMatcher IP Internal) :
    ExplainTarget ser target isIngress = (do
      let peers ← IP.mapM ipPeerLines
      let internal ← ExplainInternal ser Internal
      pure (target.GetPrimaryKey :: (sourceRuleLines target.SourceRules
        ++ (("  " ++ (if isIngress then "ingress" else "egress") ++ ":")
              :: (peers.flatten ++ internal))
        ++ [""]))) := by
  rw [ExplainTarget_layout, h]
  simp only [edgeLines, targetType]
  cases List.mapM ipPeerLines IP with
  | error e => rfl
  | ok peers =>
    cases ExplainInternal ser Internal with
    | error e => rfl
    | ok internal => rfl

/-- Witness of C3 on a target with one IP peer and the all-internal matcher. -/
theorem C3_ExplainTarget_specific_edge_witness :
    ExplainTarget (fun _ => "")
        ⟨"k", [], .SpecificEdgeMatcher
          [⟨⟨"10.0.0.0/8", ["10.1.0.0/16", "10.2.0.0/16"]⟩,
            .SpecificPortsMatcher [⟨some (.FromString "dns"), "UDP"⟩, ⟨none, "TCP"⟩]⟩]
          .AllInternalMatcher⟩ false
      = .ok ["k", "  egress:", "  - IPBlock: cidr 10.0.0.0/8, except [10.1.0.0/16 10.2.0.0/16]",
          "    port dns on protocol UDP", "    all ports on protocol TCP",
          "    all pods in all namespaces", ""] :=
  (C3_ExplainTarget_specific_edge (fun _ => "") _ false
    [⟨⟨"10.0.0.0/8", ["10.1.0.0/16", "10.2.0.0/16"]⟩,
      .SpecificPortsMatcher [⟨some (.FromString "dns"), "UDP"⟩, ⟨none, "TCP"⟩]⟩]
    .AllInternalMatcher rfl).trans (by rfl)

/-- C4: `ExplainInternal` of the all-internal matcher is the one line
`    all pods in all namespaces`; of a specific internal matcher it is, for each pod peer in
list order, the line `    <namespace phrase>; <pod phrase>` followed by the peer's port lines
behind six spaces (`podPeerLines`); the number of lines is the sum over the peers of one plus
the number of port lines of the peer; it returns whenever the peers are of known types. -/
theorem C4_ExplainInternal_lines (ser : LabelSelector → String) :
    ExplainInternal ser .AllInternalMatcher = .ok ["    all pods in all namespaces"]
    ∧ (∀ PodPeers : List PodPeerMatcher,
        ExplainInternal ser (.SpecificInternalMatcher PodPeers)
          = (PodPeers.mapM (podPeerLines ser)).map List.flatten)
    ∧ (∀ (PodPeers : List PodPeerMatcher) (lines : List String),
        ExplainInternal ser (.SpecificInternalMatcher PodPeers) = .ok lines →
        lines.length = (PodPeers.map (fun peer => 1 + portLineCount peer.Port)).sum)
    ∧ (∀ PodPeers : List PodPeerMatcher, PodPeers.all PodPeerMatcher.Known = true →
        ∃ lines, ExplainInternal ser (.SpecificInternalMatcher PodPeers) = .ok lines) := by
  refine ⟨rfl, ExplainInternal_specific ser, ?_, ?_⟩
  · intro PodPeers lines h
    rw [ExplainInternal_specific] at h
    cases hrs : List.mapM (podPeerLines ser) PodPeers with
    | error e => rw [hrs] at h; cases h
    | ok rs =>
      rw [hrs] at h
      cases h
      exact flatten_length_of_forall₂ _ _ (podPeerLines_length ser) PodPeers rs
        (mapM_ok_forall₂ _ _ _ hrs)
  · intro PodPeers h
    exact ExplainInternal_ok_of_known ser (.SpecificInternalMatcher PodPeers) h

/-- Witness of C4 on two pod peers, with two port lines and one port line. -/
theorem C4_ExplainInternal_lines_witness :
    ExplainInternal (fun _ => "pod=a") (.SpecificInternalMatcher
        [⟨.AllNamespacesMatcher, .LabelSelectorPodMatcher ⟨[("pod", "a")], []⟩,
            .SpecificPortsMatcher [⟨some (.FromString "web"), "TCP"⟩, ⟨none, "UDP"⟩]⟩,
         ⟨.ExactNamespaceMatcher "y", .AllPodsMatcher, .AllPortsMatcher⟩])
      = .ok ["    all namespaces; pods matching pod=a", "      port web on protocol TCP",
          "      all ports on protocol UDP", "    namespace y; all pods",
          "      all ports all protocols"]
    ∧ List.length ["    all namespaces; pods matching pod=a", "      port web on protocol TCP",
          "      all ports on protocol UDP", "    namespace y; all pods",
          "      all ports all protocols"]
      = (1 + portLineCount
            (.SpecificPortsMatcher [⟨some (.FromString "web"), "TCP"⟩, ⟨none, "UDP"⟩]))
        + ((1 + portLineCount .AllPortsMatcher) + 0) :=
  ⟨rfl, (C4_ExplainInternal_lines (fun _ => "pod=a")).2.2.1
    [⟨.AllNamespacesMatcher, .LabelSelectorPodMatcher ⟨[("pod", "a")], []⟩,
        .SpecificPortsMatcher [⟨some (.FromString "web"), "TCP"⟩, ⟨none, "UDP"⟩]⟩,
     ⟨.ExactNamespaceMatcher "y", .AllPodsMatcher, .AllPortsMatcher⟩]
    ["    all namespaces; pods matching pod=a", "      port web on protocol TCP",
      "      all ports on protocol UDP", "    namespace y; all pods",
      "      all ports all protocols"] rfl⟩

/-- C5: `ExplainPortMatcher` of the all-ports matcher is the one line
`all ports all protocols`; of a specific-ports matcher it is one line per entry in entry
order, `all ports on protocol <P>` for an entry without port and
`port <p> on protocol <P>` otherwise; so `n` entries give `n` lines and no entry gives no
line. -/
theorem C5_ExplainPortMatcher_lines :
    ExplainPortMatcher .AllPortsMatcher = .ok ["all ports all protocols"]
    ∧ (∀ Ports : List PortProtocolMatcher,
        ExplainPortMatcher (.SpecificPortsMatcher Ports) = .ok (Ports.map portLine)
        ∧ (Ports.map portLine).length = Ports.length)
    ∧ (∀ P : String, portLine ⟨none, P⟩ = "all ports on protocol " ++ P)
    ∧ (∀ (p : IntOrString) (P : String),
        portLine ⟨some p, P⟩ = "port " ++ p.String ++ " on protocol " ++ P)
    ∧ ExplainPortMatcher (.SpecificPortsMatcher []) = .ok [] :=
  ⟨rfl, fun Ports => ⟨ExplainPortMatcher_specific Ports, List.length_map _ _⟩,
    fun _ => rfl, fun _ _ => rfl, rfl⟩

/-- C6: with an empty `SourceRules` list the block is the primary key line directly followed
by the edge lines (no `  source rules:` heading); with a non-empty list the primary key line
is followed by the heading `  source rules:`, then one line
`    <policyNamespace>/<policyName>` per source rule in list order, then the edge lines;
the edge lines are never empty. -/
theorem C6_ExplainTarget_source_rules (ser : LabelSelector → String) (target : Target)
    (isIngress : Bool) :
    (target.SourceRules = [] →
      ExplainTarget ser target isIngress
        = (edgeLines ser target.Edge isIngress).map
            (fun e => target.GetPrimaryKey :: (e ++ [""])))
    ∧ (target.SourceRules ≠ [] →
      ExplainTarget ser target isIngress
        = (edgeLines ser target.Edge isIngress).map
            (fun e => target.GetPrimaryKey :: "  source rules:"
              :: (target.SourceRules.map (fun sr => "    " ++ sr.Namespace ++ "/" ++ sr.Name)
                  ++ e ++ [""])))
    ∧ (∀ e, edgeLines ser target.Edge isIngress = .ok e → e ≠ []) := by
  refine ⟨?_, ?_, edgeLines_ne_nil ser target.Edge isIngress⟩
  · intro h
    rw [ExplainTarget_layout, h]
    simp [sourceRuleLines]
  · intro h
    rw [ExplainTarget_layout]
    cases hr : target.SourceRules with
    | nil => exact absurd hr h
    | cons r rs => simp [sourceRuleLines]

/-- Witness of C6 on a target without source rules and a target with two of them. -/
theorem C6_ExplainTarget_source_rules_witness :
    ExplainTarget (fun _ => "") ⟨"k", [], .AllEdgeMatcher⟩ true
        = .ok ["k", "  all ingress allowed", ""]
    ∧ ExplainTarget (fun _ => "") ⟨"k", [⟨"x", "b"⟩, ⟨"y", "a"⟩], .NoneEdgeMatcher⟩ false
        = .ok ["k", "  source rules:", "    x/b", "    y/a", "  all egress blocked", ""] :=
  ⟨((C6_ExplainTarget_source_rules (fun _ => "") ⟨"k", [], .AllEdgeMatcher⟩ true).1 rfl).trans
      (by rfl),
   ((C6_ExplainTarget_source_rules (fun _ => "")
      ⟨"k", [⟨"x", "b"⟩, ⟨"y", "a"⟩], .NoneEdgeMatcher⟩ false).2.1 (by simp)).trans (by rfl)⟩

/-- C7: the namespace phrase is `all namespaces`, `namespace <n>` or
`namespaces matching <serialized selector>`; the pod phrase is `all pods` or
`pods matching <serialized selector>`. -/
theorem C7_namespace_and_pod_phrases (ser : LabelSelector → String) :
    ExplainNamespaceMatcher ser .AllNamespacesMatcher = .ok "all namespaces"
    ∧ (∀ n : String, ExplainNamespaceMatcher ser (.ExactNamespaceMatcher n) = .ok ("namespace " ++ n))
    ∧ (∀ selector : LabelSelector,
        ExplainNamespaceMatcher ser (.LabelSelectorNamespaceMatcher selector)
          = .ok ("namespaces matching " ++ ser selector))
    ∧ ExplainPodMatcher ser .AllPodsMatcher = .ok "all pods"
    ∧ (∀ selector : LabelSelector,
        ExplainPodMatcher ser (.LabelSelectorPodMatcher selector)
          = .ok ("pods matching " ++ ser selector)) :=
  ⟨rfl, fun _ => rfl, fun _ => rfl, rfl, fun _ => rfl⟩

/-- C8: a block returned by `ExplainTarget` is non-empty and its last line is the empty
line, and a block is returned for every target of known types; the string returned by
`Explain` is the newline-join of the blocks `primary key :: middle ++ [""]` of the ingress
targets followed by those of the egress targets, so every block ends with the empty line,
and with at least one target the joined lines end with the empty line and the string ends
with a newline. -/
theorem C8_blocks_end_with_blank_line (ser : LabelSelector → String) :
    (∀ (target : Target) (isIngress : Bool) (lines : List String),
        ExplainTarget ser target isIngress = .ok lines →
        lines ≠ [] ∧ lines.getLast? = some "")
    ∧ (∀ (target : Target) (isIngress : Bool), target.Known = true →
        ∃ body, ExplainTarget ser target isIngress = .ok (body ++ [""]))
    ∧ (∀ (policies : Policy) (s : String), Explain ser policies = .ok s →
        ∃ ingress egress : List (List String),
          List.Forall₂ (fun t middle =>
              ExplainTarget ser t true = .ok (t.GetPrimaryKey :: (middle ++ [""])))
            policies.Ingress ingress
          ∧ List.Forall₂ (fun t middle =>
              ExplainTarget ser t false = .ok (t.GetPrimaryKey :: (middle ++ [""])))
            policies.Egress egress
          ∧ s = "\n".intercalate
              ((List.zipWith (fun t middle => t.GetPrimaryKey :: (middle ++ [""]))
                  policies.Ingress ingress).flatten
                ++ (List.zipWith (fun t middle => t.GetPrimaryKey :: (middle ++ [""]))
                  policies.Egress egress).flatten)
          ∧ (policies.Ingress ++ policies.Egress ≠ [] →
              (∃ front, front ≠ [] ∧
                (List.zipWith (fun t middle => t.GetPrimaryKey :: (middle ++ [""]))
                    policies.Ingress ingress).flatten
                  ++ (List.zipWith (fun t middle => t.GetPrimaryKey :: (middle ++ [""]))
                    policies.Egress egress).flatten = front ++ [""])
              ∧ ∃ s', s = s' ++ "\n")) := by
  refine ⟨?_, ?_, ?_⟩
  · intro target isIngress lines h
    obtain ⟨middle, _, rfl⟩ := ExplainTarget_block ser target isIngress lines h
    refine ⟨by simp, ?_⟩
    rw [← List.cons_append, List.getLast?_concat]
  · intro target isIngress hk
    obtain ⟨lines, h⟩ := ExplainTarget_ok_of_known ser target isIngress hk
    obtain ⟨middle, _, rfl⟩ := ExplainTarget_block ser target isIngress lines h
    exact ⟨target.GetPrimaryKey :: middle, h⟩
  · intro policies s h
    rw [Explain_layout] at h
    cases hin : List.mapM (fun t => ExplainTarget ser t true) policies.Ingress with
    | error e => rw [hin] at h; cases h
    | ok inBlocks =>
      cases heg : List.mapM (fun t => ExplainTarget ser t false) policies.Egress with
      | error e => rw [hin, heg] at h; cases h
      | ok egBlocks =>
        rw [hin, heg] at h
        cases h
        obtain ⟨ingress, hfi, hzi⟩ := forall₂_blocks ser true _ _ (mapM_ok_forall₂ _ _ _ hin)
        obtain ⟨egress, hfe, hze⟩ := forall₂_blocks ser false _ _ (mapM_ok_forall₂ _ _ _ heg)
        refine ⟨ingress, egress, hfi, hfe, by rw [hzi, hze], ?_⟩
        intro hne
        have hlen : (inBlocks ++ egBlocks).length = (policies.Ingress ++ policies.Egress).length := by
          rw [List.length_append, List.length_append,
            (mapM_ok_forall₂ _ _ _ hin).length_eq, (mapM_ok_forall₂ _ _ _ heg).length_eq]
        have hbne : inBlocks ++ egBlocks ≠ [] := by
          intro hnil
          rw [hnil] at hlen
          exact hne (List.length_eq_zero.mp hlen.symm)
        have hshape : ∀ block ∈ inBlocks ++ egBlocks,
            ∃ (pk : String) (middle : List String), block = pk :: (middle ++ [""]) := by
          intro block hb
          rcases List.mem_append.mp hb with hb | hb
          · obtain ⟨t, _, ht⟩ := forall₂_forall_right _ _ _ (mapM_ok_forall₂ _ _ _ hin) block hb
            obtain ⟨middle, _, hm⟩ := ExplainTarget_block ser t true block ht
            exact ⟨_, middle, hm⟩
          · obtain ⟨t, _, ht⟩ := forall₂_forall_right _ _ _ (mapM_ok_forall₂ _ _ _ heg) block hb
            obtain ⟨middle, _, hm⟩ := ExplainTarget_block ser t false block ht
            exact ⟨_, middle, hm⟩
        obtain ⟨front, hfne, hfront⟩ := flatten_blocks_concat _ hbne hshape
        rw [List.flatten_append] at hfront
        rw [← hzi, ← hze]
        refine ⟨⟨front, hfne, hfront⟩, "\n".intercalate front, ?_⟩
        show "\n".intercalate (inBlocks.flatten ++ egBlocks.flatten) = _
        rw [hfront, intercalate_concat _ _ hfne]
        simp

/-- Witness of C8 on a policy with one ingress and one egress target. -/
theorem C8_blocks_end_with_blank_line_witness :
    (ExplainTarget (fun _ => "") ⟨"k1", [], .NoneEdgeMatcher⟩ true
        = .ok ["k1", "  all ingress blocked", ""]
      ∧ ["k1", "  all ingress blocked", ""].getLast? = some "")
    ∧ Explain (fun _ => "")
          ⟨[⟨"k1", [], .NoneEdgeMatcher⟩], [⟨"k2", [⟨"x", "p"⟩], .AllEdgeMatcher⟩]⟩
        = .ok "k1\n  all ingress blocked\n\nk2\n  source rules:\n    x/p\n  all egress allowed\n"
    ∧ ∃ s', "k1\n  all ingress blocked\n\nk2\n  source rules:\n    x/p\n  all egress allowed\n"
        = s' ++ "\n" := by
  refine ⟨⟨rfl, ((C8_blocks_end_with_blank_line (fun _ => "")).1
    ⟨"k1", [], .NoneEdgeMatcher⟩ true _ rfl).2⟩, rfl, ?_⟩
  obtain ⟨_, _, _, _, _, hend⟩ := (C8_blocks_end_with_blank_line (fun _ => "")).2.2
    ⟨[⟨"k1", [], .NoneEdgeMatcher⟩], [⟨"k2", [⟨"x", "p"⟩], .AllEdgeMatcher⟩]⟩
    "k1\n  all ingress blocked\n\nk2\n  source rules:\n    x/p\n  all egress allowed\n" rfl
  exact (hend (by simp)).2

/-- C9 (as stated) fails: the ingress target with the key `ingress: x/pod=a`, explained
with `isIngress = false`, keeps `ingress: x/pod=a` as its first line, which is no primary key
line of the egress direction, while its edge line says `egress`; and whatever its key is, no
target has a primary key line of the explained direction as first line under both values of
`isIngress`. -/
theorem C9_first_line_direction_counterexample :
    ExplainTarget (fun _ => "") ⟨primaryKeyLine true "x" "pod=a", [], .NoneEdgeMatcher⟩ false
        = .ok ["ingress: x/pod=a", "  all egress blocked", ""]
    ∧ ¬ IsPrimaryKeyLine false "ingress: x/pod=a"
    ∧ ∀ (ser : LabelSelector → String) (target : Target),
        ¬ ∀ isIngress : Bool, ∃ line rest,
            ExplainTarget ser target isIngress = .ok (line :: rest)
            ∧ IsPrimaryKeyLine isIngress line := by
  refine ⟨rfl, fun h => absurd ((primaryKeyLine_direction true false "x" "pod=a").mp h) (by decide),
    ?_⟩
  intro ser target hall
  obtain ⟨l1, r1, h1, ns1, sel1, hl1⟩ := hall true
  obtain ⟨l2, r2, h2, hform2⟩ := hall false
  obtain ⟨m1, _, hm1⟩ := ExplainTarget_block ser target true _ h1
  obtain ⟨m2, _, hm2⟩ := ExplainTarget_block ser target false _ h2
  have e1 : l1 = target.GetPrimaryKey := (List.cons.inj hm1).1
  have e2 : l2 = target.GetPrimaryKey := (List.cons.inj hm2).1
  rw [e2, ← e1, hl1] at hform2
  exact absurd ((primaryKeyLine_direction true false ns1 sel1).mp hform2) (by decide)

/-- C9 (amended): the first line of `ExplainTarget target isIngress` is the primary key of
the target, the string that `GetPrimaryKey` returns; a block with that first line is returned
for every target of known types; the line is the same under both values of `isIngress`;
when the key is the primary key line of a direction, a namespace and a selector, the first
line is that line, and it is a primary key line of the explained direction exactly when the
direction of the key is `isIngress`; the explained direction is the one of the edge line,
which follows the key and the source-rule lines and is built from `isIngress`. -/
theorem C9_first_line_is_primary_key (ser : LabelSelector → String) (target : Target)
    (isIngress : Bool) :
    (∀ lines, ExplainTarget ser target isIngress = .ok lines →
        lines.head? = some target.GetPrimaryKey)
    ∧ (target.Known = true →
        ∃ rest, ExplainTarget ser target isIngress = .ok (target.GetPrimaryKey :: rest))
    ∧ (∀ lines other, ExplainTarget ser target isIngress = .ok lines →
        ExplainTarget ser target (!isIngress) = .ok other → lines.head? = other.head?)
    ∧ (∀ (direction : Bool) (ns selector : String) (lines : List String),
        target.GetPrimaryKey = primaryKeyLine direction ns selector →
        ExplainTarget ser target isIngress = .ok lines →
        lines.head? = some (primaryKeyLine direction ns selector)
        ∧ (IsPrimaryKeyLine isIngress (primaryKeyLine direction ns selector)
            ↔ direction = isIngress))
    ∧ (∀ lines, ExplainTarget ser target isIngress = .ok lines →
        ∃ line rest, edgeLine target.Edge isIngress = some line
          ∧ lines = target.GetPrimaryKey
              :: (sourceRuleLines target.SourceRules ++ line :: rest)) := by
  refine ⟨?_, ?_, ?_, ?_, ?_⟩
  · intro lines h
    obtain ⟨middle, _, rfl⟩ := ExplainTarget_block ser target isIngress lines h
    rfl
  · intro hk
    obtain ⟨lines, h⟩ := ExplainTarget_ok_of_known ser target isIngress hk
    obtain ⟨middle, _, rfl⟩ := ExplainTarget_block ser target isIngress lines h
    exact ⟨_, h⟩
  · intro lines other h h2
    obtain ⟨m, _, rfl⟩ := ExplainTarget_block ser target isIngress lines h
    obtain ⟨m2, _, rfl⟩ := ExplainTarget_block ser target (!isIngress) other h2
    rfl
  · intro direction ns selector lines hkey h
    obtain ⟨middle, _, rfl⟩ := ExplainTarget_block ser target isIngress lines h
    exact ⟨by rw [← hkey]; rfl, primaryKeyLine_direction direction isIngress ns selector⟩
  · intro lines h
    rw [ExplainTarget_layout] at h
    cases he : edgeLines ser target.Edge isIngress with
    | error e => rw [he] at h; cases h
    | ok e =>
      rw [he] at h
      cases h
      obtain ⟨line, rest, hline, rfl⟩ := edgeLines_head ser target.Edge isIngress e he
      exact ⟨line, rest ++ [""], hline, by simp⟩

/-- Witness of C9 (amended) on an egress target with a specific edge, explained as egress. -/
theorem C9_first_line_is_primary_key_witness :
    ExplainTarget (fun _ => "")
        ⟨primaryKeyLine false "x" "pod=a", [], .SpecificEdgeMatcher [] .AllInternalMatcher⟩ false
      = .ok ["egress: x/pod=a", "  egress:", "    all pods in all namespaces", ""]
    ∧ ["egress: x/pod=a", "  egress:", "    all pods in all namespaces", ""].head?
      = some (primaryKeyLine false "x" "pod=a")
    ∧ (IsPrimaryKeyLine false (primaryKeyLine false "x" "pod=a") ↔ false = false) :=
  ⟨rfl, (C9_first_line_is_primary_key (fun _ => "")
    ⟨primaryKeyLine false "x" "pod=a", [], .SpecificEdgeMatcher [] .AllInternalMatcher⟩
    false).2.2.2.1 false "x" "pod=a" _ rfl rfl⟩

/-- C10: when a policy has an ingress target whose edge is `NoneEdgeMatcher`, every string
returned by `Explain` contains `all ingress blocked`; when it has an egress target whose edge
is `NoneEdgeMatcher`, it contains `all egress blocked`; and `Explain` returns a string for
every policy whose targets are of known types. -/
theorem C10_Explain_contains_blocked (ser : LabelSelector → String) (policies : Policy) :
    ((∃ t ∈ policies.Ingress, t.Edge = .NoneEdgeMatcher) →
        ∀ s, Explain ser policies = .ok s → ContainsText s "all ingress blocked")
    ∧ ((∃ t ∈ policies.Egress, t.Edge = .NoneEdgeMatcher) →
        ∀ s, Explain ser policies = .ok s → ContainsText s "all egress blocked")
    ∧ (policies.Known = true → ∃ s, Explain ser policies = .ok s) := by
  refine ⟨?_, ?_, Explain_ok_of_known ser policies⟩
  · rintro ⟨t, ht, he⟩ s h
    have hb : ExplainTarget ser t true
        = .ok (t.GetPrimaryKey :: (sourceRuleLines t.SourceRules
            ++ ["  " ++ "all ingress blocked"] ++ [""])) := by
      rw [ExplainTarget_layout, he]
      rfl
    obtain ⟨pre, post, rfl⟩ := Explain_contains_line ser policies s h
      ("  " ++ "all ingress blocked") (Or.inl ⟨t, ht, _, hb, by simp⟩)
    exact containsText_of_indented pre post _
  · rintro ⟨t, ht, he⟩ s h
    have hb : ExplainTarget ser t false
        = .ok (t.GetPrimaryKey :: (sourceRuleLines t.SourceRules
            ++ ["  " ++ "all egress blocked"] ++ [""])) := by
      rw [ExplainTarget_layout, he]
      rfl
    obtain ⟨pre, post, rfl⟩ := Explain_contains_line ser policies s h
      ("  " ++ "all egress blocked") (Or.inr ⟨t, ht, _, hb, by simp⟩)
    exact containsText_of_indented pre post _

/-- Witness of C10 on the policy that the deny-ingress document compiles to: one ingress
target without edge. -/
theorem C10_Explain_contains_blocked_witness :
    Explain (fun _ => "")
        ⟨[⟨primaryKeyLine true "x" "", [⟨"x", "deny-ingress"⟩], .NoneEdgeMatcher⟩], []⟩
      = .ok "ingress: x/\n  source rules:\n    x/deny-ingress\n  all ingress blocked\n"
    ∧ ContainsText "ingress: x/\n  source rules:\n    x/deny-ingress\n  all ingress blocked\n"
        "all ingress blocked" :=
  ⟨rfl, (C10_Explain_contains_blocked (fun _ => "")
    ⟨[⟨primaryKeyLine true "x" "", [⟨"x", "deny-ingress"⟩], .NoneEdgeMatcher⟩], []⟩).1
    ⟨_, List.mem_cons_self _ _, rfl⟩ _ rfl⟩

/-! ## Claims on variants and totality -/

/-- C11: rendering is a list homomorphism: the lines of a specific internal matcher over
`x ++ y` are the lines over `x` followed by the lines over `y` (and they fail when either
part fails, the first part first); the lines of a specific ports matcher over `x ++ y` are
the lines over `x` followed by the lines over `y`; an entry or a peer that occurs twice is
rendered twice. -/
theorem C11_rendering_is_list_homomorphism (ser : LabelSelector → String) :
    (∀ x y : List PodPeerMatcher,
        ExplainInternal ser (.SpecificInternalMatcher (x ++ y)) = (do
          let a ← ExplainInternal ser (.SpecificInternalMatcher x)
          let b ← ExplainInternal ser (.SpecificInternalMatcher y)
          pure (a ++ b)))
    ∧ (∀ (x y : List PodPeerMatcher) (a b : List String),
        ExplainInternal ser (.SpecificInternalMatcher x) = .ok a →
        ExplainInternal ser (.SpecificInternalMatcher y) = .ok b →
        ExplainInternal ser (.SpecificInternalMatcher (x ++ y)) = .ok (a ++ b))
    ∧ (∀ x y : List PortProtocolMatcher, ∃ a b,
        ExplainPortMatcher (.SpecificPortsMatcher x) = .ok a
        ∧ ExplainPortMatcher (.SpecificPortsMatcher y) = .ok b
        ∧ ExplainPortMatcher (.SpecificPortsMatcher (x ++ y)) = .ok (a ++ b))
    ∧ (∀ entry : PortProtocolMatcher,
        ExplainPortMatcher (.SpecificPortsMatcher [entry, entry])
          = .ok [portLine entry, portLine entry])
    ∧ (∀ (peer : PodPeerMatcher) (lines : List String), podPeerLines ser peer = .ok lines →
        ExplainInternal ser (.SpecificInternalMatcher [peer, peer]) = .ok (lines ++ lines)) := by
  have hom : ∀ x y : List PodPeerMatcher,
      ExplainInternal ser (.SpecificInternalMatcher (x ++ y)) = (do
        let a ← ExplainInternal ser (.SpecificInternalMatcher x)
        let b ← ExplainInternal ser (.SpecificInternalMatcher y)
        pure (a ++ b)) := by
    intro x y
    simp only [ExplainInternal_specific, List.mapM_append]
    cases List.mapM (podPeerLines ser) x with
    | error e => rfl
    | ok rx =>
      cases List.mapM (podPeerLines ser) y with
      | error e => rfl
      | ok ry => simp [Except.map, bind, Except.bind, pure, Except.pure]
  refine ⟨hom, ?_, ?_, ?_, ?_⟩
  · intro x y a b ha hb
    rw [hom, ha, hb]
    rfl
  · intro x y
    exact ⟨x.map portLine, y.map portLine, ExplainPortMatcher_specific x,
      ExplainPortMatcher_specific y, by rw [ExplainPortMatcher_specific, List.map_append]⟩
  · intro entry
    rw [ExplainPortMatcher_specific]
    rfl
  · intro peer lines h
    rw [ExplainInternal_specific, List.mapM_cons, List.mapM_cons, List.mapM_nil, h]
    simp [Except.map, bind, Except.bind, pure, Except.pure]

/-- Witness of C11 on two one-peer lists. -/
theorem C11_rendering_is_list_homomorphism_witness :
    ExplainInternal (fun _ => "")
        (.SpecificInternalMatcher [⟨.AllNamespacesMatcher, .AllPodsMatcher, .AllPortsMatcher⟩])
      = .ok ["    all namespaces; all pods", "      all ports all protocols"]
    ∧ ExplainInternal (fun _ => "")
        (.SpecificInternalMatcher
          [⟨.ExactNamespaceMatcher "y", .AllPodsMatcher, .SpecificPortsMatcher []⟩])
      = .ok ["    namespace y; all pods"]
    ∧ ExplainInternal (fun _ => "")
        (.SpecificInternalMatcher
          ([⟨.AllNamespacesMatcher, .AllPodsMatcher, .AllPortsMatcher⟩]
            ++ [⟨.ExactNamespaceMatcher "y", .AllPodsMatcher, .SpecificPortsMatcher []⟩]))
      = .ok (["    all namespaces; all pods", "      all ports all protocols"]
          ++ ["    namespace y; all pods"]) :=
  ⟨rfl, rfl, (C11_rendering_is_list_homomorphism (fun _ => "")).2.1
    [⟨.AllNamespacesMatcher, .AllPodsMatcher, .AllPortsMatcher⟩]
    [⟨.ExactNamespaceMatcher "y", .AllPodsMatcher, .SpecificPortsMatcher []⟩] _ _ rfl rfl⟩

/-- C15 (code evaluated): on an unknown dynamic type `ExplainPortMatcher`,
`ExplainPodMatcher`, `ExplainNamespaceMatcher` and the edge switch of `ExplainTarget` panic
with their `invalid ... type` message, but `ExplainInternal` returns no line and no panic,
so a specific edge whose internal matcher is the nil interface renders as a bare heading. -/
theorem C15_unknown_variant_behaviour (ser : LabelSelector → String) (goType : String) :
    ExplainPortMatcher (.Other goType) = .error ("invalid PortMatcher type " ++ goType)
    ∧ ExplainPodMatcher ser (.Other goType) = .error ("invalid PodMatcher type " ++ goType)
    ∧ ExplainNamespaceMatcher ser (.Other goType)
        = .error ("invalid NamespaceMatcher type " ++ goType)
    ∧ (∀ (pk : String) (rules : List SourceRule) (isIngress : Bool),
        ExplainTarget ser ⟨pk, rules, .Other goType⟩ isIngress
          = .error ("invalid EdgeMatcher type " ++ goType))
    ∧ ExplainInternal ser (.Other goType) = .ok []
    ∧ ExplainTarget ser ⟨"k", [], .SpecificEdgeMatcher [] (.Other goType)⟩ true
        = .ok ["k", "  ingress:", ""] := by
  refine ⟨rfl, rfl, rfl, ?_, rfl, rfl⟩
  intro pk rules isIngress
  rw [ExplainTarget_layout]
  rfl

/-- C16: on a policy all of whose targets carry an edge of a known type with nested matchers
of known types, `Explain` returns a string and reaches no panic. -/
theorem C16_Explain_total_on_known (ser : LabelSelector → String) (policies : Policy)
    (h : policies.Known = true) :
    (∃ s, Explain ser policies = .ok s) ∧ ∀ msg, Explain ser policies ≠ .error msg := by
  obtain ⟨s, hs⟩ := Explain_ok_of_known ser policies h
  exact ⟨⟨s, hs⟩, fun msg hmsg => by rw [hs] at hmsg; cases hmsg⟩

/-- Witness of C16 on a policy with a specific edge that uses every known matcher type. -/
theorem C16_Explain_total_on_known_witness :
    Policy.Known ⟨[⟨"k1", [], .SpecificEdgeMatcher
        [⟨⟨"10.0.0.0/8", []⟩, .AllPortsMatcher⟩]
        (.SpecificInternalMatcher
          [⟨.LabelSelectorNamespaceMatcher ⟨[("ns", "y")], []⟩,
            .LabelSelectorPodMatcher ⟨[("pod", "a")], []⟩,
            .SpecificPortsMatcher [⟨some (.FromInt 80), "TCP"⟩]⟩])⟩],
      [⟨"k2", [], .NoneEdgeMatcher⟩, ⟨"k3", [], .AllEdgeMatcher⟩]⟩ = true
    ∧ ∃ s, Explain (fun _ => "sel") ⟨[⟨"k1", [], .SpecificEdgeMatcher
        [⟨⟨"10.0.0.0/8", []⟩, .AllPortsMatcher⟩]
        (.SpecificInternalMatcher
          [⟨.LabelSelectorNamespaceMatcher ⟨[("ns", "y")], []⟩,
            .LabelSelectorPodMatcher ⟨[("pod", "a")], []⟩,
            .SpecificPortsMatcher [⟨some (.FromInt 80), "TCP"⟩]⟩])⟩],
      [⟨"k2", [], .NoneEdgeMatcher⟩, ⟨"k3", [], .AllEdgeMatcher⟩]⟩ = .ok s :=
  ⟨rfl, (C16_Explain_total_on_known (fun _ => "sel")
    ⟨[⟨"k1", [], .SpecificEdgeMatcher
        [⟨⟨"10.0.0.0/8", []⟩, .AllPortsMatcher⟩]
        (.SpecificInternalMatcher
          [⟨.LabelSelectorNamespaceMatcher ⟨[("ns", "y")], []⟩,
            .LabelSelectorPodMatcher ⟨[("pod", "a")], []⟩,
            .SpecificPortsMatcher [⟨some (.FromInt 80), "TCP"⟩]⟩])⟩],
      [⟨"k2", [], .NoneEdgeMatcher⟩, ⟨"k3", [], .AllEdgeMatcher⟩]⟩ rfl).1⟩

/-! ## Claims on the shape of blocks -/

/-- C17: a block returned by `ExplainTarget` is the primary key, then a non-empty middle whose
lines all start with two spaces (so none is empty), then the empty line, and such a block is
returned for every target of known types; when the primary key is not empty the closing line
is the only empty line of the block; for a policy of known types with non-empty primary keys
the blocks are recovered from the line list that `Explain` joins by cutting after each empty
line. -/
theorem C17_block_shape (ser : LabelSelector → String) :
    (∀ (target : Target) (isIngress : Bool) (lines : List String),
        ExplainTarget ser target isIngress = .ok lines →
        ∃ middle, lines = [target.GetPrimaryKey] ++ middle ++ [""] ∧ middle ≠ []
          ∧ (∀ line ∈ middle, StartsWithTwoSpaces line ∧ line ≠ "")
          ∧ (target.GetPrimaryKey ≠ "" → "" ∉ [target.GetPrimaryKey] ++ middle))
    ∧ (∀ (target : Target) (isIngress : Bool), target.Known = true →
        ∃ middle, ExplainTarget ser target isIngress
          = .ok ([target.GetPrimaryKey] ++ middle ++ [""]))
    ∧ (∀ policies : Policy, policies.Known = true →
        (∀ t ∈ policies.Ingress ++ policies.Egress, t.GetPrimaryKey ≠ "") →
        ∃ inBlocks egBlocks : List (List String),
          List.Forall₂ (fun t block => ExplainTarget ser t true = .ok block)
            policies.Ingress inBlocks
          ∧ List.Forall₂ (fun t block => ExplainTarget ser t false = .ok block)
            policies.Egress egBlocks
          ∧ Explain ser policies = .ok ("\n".intercalate (inBlocks ++ egBlocks).flatten)
          ∧ cutAfterBlank (inBlocks ++ egBlocks).flatten = inBlocks ++ egBlocks) := by
  have shape : ∀ (target : Target) (isIngress : Bool) (lines : List String),
      ExplainTarget ser target isIngress = .ok lines →
      ∃ middle, lines = [target.GetPrimaryKey] ++ middle ++ [""] ∧ middle ≠ []
        ∧ (∀ line ∈ middle, StartsWithTwoSpaces line ∧ line ≠ "")
        ∧ (target.GetPrimaryKey ≠ "" → "" ∉ [target.GetPrimaryKey] ++ middle) := by
    intro target isIngress lines h
    obtain ⟨middle, hl, hne, hstart⟩ := ExplainTarget_shape ser target isIngress lines h
    refine ⟨middle, hl, hne,
      fun line hline => ⟨hstart line hline, startsWithTwoSpaces_ne_empty line (hstart line hline)⟩,
      ?_⟩
    intro hpk hmem
    rcases List.mem_append.mp hmem with hm | hm
    · exact hpk (List.mem_singleton.mp hm).symm
    · exact startsWithTwoSpaces_ne_empty "" (hstart "" hm) rfl
  refine ⟨shape, ?_, ?_⟩
  · intro target isIngress hk
    obtain ⟨lines, h⟩ := ExplainTarget_ok_of_known ser target isIngress hk
    obtain ⟨middle, hl, _⟩ := ExplainTarget_shape ser target isIngress lines h
    exact ⟨middle, hl ▸ h⟩
  · intro policies hk hkeys
    have hk2 := hk
    simp only [Policy.Known, Bool.and_eq_true, List.all_eq_true] at hk2
    obtain ⟨inBlocks, hin⟩ := mapM_ok_of_forall (fun t => ExplainTarget ser t true)
      policies.Ingress (fun t ht => ExplainTarget_ok_of_known ser t true (hk2.1 t ht))
    obtain ⟨egBlocks, heg⟩ := mapM_ok_of_forall (fun t => ExplainTarget ser t false)
      policies.Egress (fun t ht => ExplainTarget_ok_of_known ser t false (hk2.2 t ht))
    have hfi := mapM_ok_forall₂ _ _ _ hin
    have hfe := mapM_ok_forall₂ _ _ _ heg
    refine ⟨inBlocks, egBlocks, hfi, hfe, ?_, ?_⟩
    · rw [Explain_layout, hin, heg, List.flatten_append]
      rfl
    · apply cutAfterBlank_flatten
      intro block hb
      rcases List.mem_append.mp hb with hb | hb
      · obtain ⟨t, ht, hx⟩ := forall₂_forall_right _ _ _ hfi block hb
        obtain ⟨middle, hl, _, _, hblank⟩ := shape t true block hx
        exact ⟨_, hl, hblank (hkeys t (List.mem_append_left _ ht))⟩
      · obtain ⟨t, ht, hx⟩ := forall₂_forall_right _ _ _ hfe block hb
        obtain ⟨middle, hl, _, _, hblank⟩ := shape t false block hx
        exact ⟨_, hl, hblank (hkeys t (List.mem_append_right _ ht))⟩

/-- Witness of C17 on a policy with one ingress and one egress target. -/
theorem C17_block_shape_witness :
    Policy.Known ⟨[⟨"k1", [⟨"x", "p"⟩], .NoneEdgeMatcher⟩],
        [⟨"k2", [], .SpecificEdgeMatcher [] .AllInternalMatcher⟩]⟩ = true
    ∧ cutAfterBlank ["k1", "  source rules:", "    x/p", "  all ingress blocked", "",
        "k2", "  egress:", "    all pods in all namespaces", ""]
      = [["k1", "  source rules:", "    x/p", "  all ingress blocked", ""],
        ["k2", "  egress:", "    all pods in all namespaces", ""]]
    ∧ ∃ inBlocks egBlocks : List (List String),
        Explain (fun _ => "") ⟨[⟨"k1", [⟨"x", "p"⟩], .NoneEdgeMatcher⟩],
            [⟨"k2", [], .SpecificEdgeMatcher [] .AllInternalMatcher⟩]⟩
          = .ok ("\n".intercalate (inBlocks ++ egBlocks).flatten)
        ∧ cutAfterBlank (inBlocks ++ egBlocks).flatten = inBlocks ++ egBlocks := by
  refine ⟨rfl, by decide, ?_⟩
  obtain ⟨inBlocks, egBlocks, _, _, hexp, hcut⟩ :=
    (C17_block_shape (fun _ => "")).2.2
      ⟨[⟨"k1", [⟨"x", "p"⟩], .NoneEdgeMatcher⟩],
        [⟨"k2", [], .SpecificEdgeMatcher [] .AllInternalMatcher⟩]⟩ rfl
      (by
        intro t ht
        simp only [List.cons_append, List.nil_append, List.mem_cons, List.mem_singleton,
          List.not_mem_nil, or_false] at ht
        rcases ht with rfl | rfl <;> decide)
  exact ⟨inBlocks, egBlocks, hexp, hcut⟩

/-- C18: when two targets with equal primary keys are explained to the same lines, under
direction flags `d1` and `d2`, then `d1 = d2`, the targets have the same number of source
rules, and their edges are of the same type (both `NoneEdgeMatcher`, both `AllEdgeMatcher` or
both `SpecificEdgeMatcher`), whatever the namespaces and names of the source rules are. -/
theorem C18_explanation_determines_direction_rules_edge (ser : LabelSelector → String)
    (t1 t2 : Target) (d1 d2 : Bool) (lines : List String)
    (_hkey : t1.GetPrimaryKey = t2.GetPrimaryKey)
    (h1 : ExplainTarget ser t1 d1 = .ok lines) (h2 : ExplainTarget ser t2 d2 = .ok lines) :
    d1 = d2
    ∧ t1.SourceRules.length = t2.SourceRules.length
    ∧ ((t1.Edge = .NoneEdgeMatcher ∧ t2.Edge = .NoneEdgeMatcher)
      ∨ (t1.Edge = .AllEdgeMatcher ∧ t2.Edge = .AllEdgeMatcher)
      ∨ ((∃ IP Internal, t1.Edge = .SpecificEdgeMatcher IP Internal)
        ∧ ∃ IP Internal, t2.Edge = .SpecificEdgeMatcher IP Internal)) := by
  rw [ExplainTarget_layout] at h1 h2
  cases he1 : edgeLines ser t1.Edge d1 with
  | error e => rw [he1] at h1; cases h1
  | ok e1 =>
    cases he2 : edgeLines ser t2.Edge d2 with
    | error e => rw [he2] at h2; cases h2
    | ok e2 =>
      rw [he1] at h1
      rw [he2] at h2
      obtain ⟨line1, rest1, hl1, rfl⟩ := edgeLines_head ser t1.Edge d1 e1 he1
      obtain ⟨line2, rest2, hl2, rfl⟩ := edgeLines_head ser t2.Edge d2 e2 he2
      have hl : t1.GetPrimaryKey :: (sourceRuleLines t1.SourceRules ++ line1 :: rest1 ++ [""])
          = t2.GetPrimaryKey :: (sourceRuleLines t2.SourceRules ++ line2 :: rest2 ++ [""]) := by
        have e1 : (Except.ok (t1.GetPrimaryKey
            :: (sourceRuleLines t1.SourceRules ++ line1 :: rest1 ++ [""]))
            : Except String (List String)) = .ok lines := h1
        have e2 : (Except.ok (t2.GetPrimaryKey
            :: (sourceRuleLines t2.SourceRules ++ line2 :: rest2 ++ [""]))
            : Except String (List String)) = .ok lines := h2
        exact Except.ok.inj (e1.trans e2.symm)
      have hsplit : sourceRuleLines t1.SourceRules ++ line1 :: (rest1 ++ [""])
          = sourceRuleLines t2.SourceRules ++ line2 :: (rest2 ++ [""]) := by
        have := (List.cons.inj hl).2
        simpa [List.append_assoc] using this
      obtain ⟨hsrc, hline, _⟩ := append_cons_split_unique IsSourceSectionLine _ _ _ _ _ _
        (sourceRuleLines_section _) (sourceRuleLines_section _)
        (edgeLine_not_section _ _ _ hl1) (edgeLine_not_section _ _ _ hl2) hsplit
      obtain ⟨hd, hv⟩ := edgeLine_inj t1.Edge t2.Edge d1 d2 line1 hl1 (hline ▸ hl2)
      exact ⟨hd, sourceRuleLines_length_eq _ _ hsrc, hv⟩

/-- Witness of C18 on two targets whose source rules differ but render to the same line. -/
theorem C18_explanation_determines_direction_rules_edge_witness :
    ExplainTarget (fun _ => "") ⟨"k", [⟨"x", "a/b"⟩], .NoneEdgeMatcher⟩ true
        = .ok ["k", "  source rules:", "    x/a/b", "  all ingress blocked", ""]
    ∧ ExplainTarget (fun _ => "") ⟨"k", [⟨"x/a", "b"⟩], .NoneEdgeMatcher⟩ true
        = .ok ["k", "  source rules:", "    x/a/b", "  all ingress blocked", ""]
    ∧ true = true
    ∧ [(⟨"x", "a/b"⟩ : SourceRule)].length = [(⟨"x/a", "b"⟩ : SourceRule)].length :=
  ⟨rfl, rfl,
    (C18_explanation_determines_direction_rules_edge (fun _ => "")
      ⟨"k", [⟨"x", "a/b"⟩], .NoneEdgeMatcher⟩ ⟨"k", [⟨"x/a", "b"⟩], .NoneEdgeMatcher⟩
      true true _ rfl rfl rfl).1,
    (C18_explanation_determines_direction_rules_edge (fun _ => "")
      ⟨"k", [⟨"x", "a/b"⟩], .NoneEdgeMatcher⟩ ⟨"k", [⟨"x/a", "b"⟩], .NoneEdgeMatcher⟩
      true true _ rfl rfl rfl).2.1⟩

end Matcher

namespace Generator

/-! ## Claims on the fixtures -/

/-- C13: the test case `should enforce multiple, stacked policies with overlapping
podSelectors` (the description carries the tag `[Feature:NetworkPolicy]`) is generated once,
and the policies it creates are, in order, the stacked policy named
`allow-client-a-via-ns-selector-81` on TCP/81 and the stacked policy named
`allow-client-a-via-ns-selector-80` on TCP/80: both in namespace `x` on the subject `pod=a`,
both of type ingress with one rule from the namespaces `ns=y`, differing in name and port
only. -/
theorem C13_stacked_policies_fixture :
    (∃ tc ∈ GenerateTestCases,
      tc.Description
        = "should enforce multiple, stacked policies with overlapping podSelectors [Feature:NetworkPolicy]"
      ∧ tc.Steps.flatMap createdPolicies
        = [stackedPolicy "allow-client-a-via-ns-selector-81" 81,
           stackedPolicy "allow-client-a-via-ns-selector-80" 80])
    ∧ (GenerateTestCases.filter fun tc => decide (tc.Description
        = "should enforce multiple, stacked policies with overlapping podSelectors [Feature:NetworkPolicy]")).length
        = 1 := by
  decide

/-- C14: the test case `should enforce updated policy` is generated once; its two steps both
probe port 81 over TCP; the first creates the allow-all policy
`allow-all-mutate-to-deny-all` (namespace `x`, empty pod selector, type ingress, one rule
without peers and ports) and the second updates the policy of the same namespace and name to
the same document with an empty ingress list. -/
theorem C14_updated_policy_fixture :
    (∃ tc ∈ GenerateTestCases,
      tc.Description = "should enforce updated policy"
      ∧ tc.Steps
        = [ ⟨81, "TCP", [.CreatePolicy (allowAllPolicy "allow-all-mutate-to-deny-all")]⟩,
            ⟨81, "TCP", [.UpdatePolicy
              { allowAllPolicy "allow-all-mutate-to-deny-all" with
                Spec := { (allowAllPolicy "allow-all-mutate-to-deny-all").Spec with
                  Ingress := [] } }]⟩ ])
    ∧ (GenerateTestCases.filter fun tc => decide (tc.Description
        = "should enforce updated policy")).length = 1 := by
  decide

/-- Bounded form of the well-formedness of the fixtures, checked by evaluation. -/
theorem fixtures_checked :
    ∀ tc ∈ GenerateTestCases,
      (∀ i < tc.Steps.length, ∀ key ∈ referredKeys (tc.Steps.getD i ⟨0, "", []⟩),
        ∃ j < i, key ∈ createdKeys (tc.Steps.getD j ⟨0, "", []⟩))
      ∧ (tc.Steps.flatMap createdKeys).Nodup := by
  decide

/-- C19: in every generated test case, every namespace and name pair that an update or a
delete action of a step refers to is introduced by a create action of a strictly earlier step
of the same test case, and no namespace and name pair is created twice in a test case. -/
theorem C19_fixtures_well_formed (tc : TestCase) (h : tc ∈ GenerateTestCases) :
    (∀ (i : Nat) (step : TestStep), tc.Steps.get? i = some step →
      ∀ key ∈ referredKeys step,
        ∃ j earlier, j < i ∧ tc.Steps.get? j = some earlier ∧ key ∈ createdKeys earlier)
    ∧ (tc.Steps.flatMap createdKeys).Nodup := by
  obtain ⟨hsteps, hnodup⟩ := fixtures_checked tc h
  refine ⟨?_, hnodup⟩
  intro i step hi key hkey
  obtain ⟨hlt, hget⟩ := List.get?_eq_some.mp hi
  have hstep : tc.Steps.getD i ⟨0, "", []⟩ = step := by
    rw [List.get?_eq_getElem?] at hi
    simp [List.getD, hi]
  obtain ⟨j, hj, hmem⟩ := hsteps i hlt key (hstep ▸ hkey)
  have hjlt : j < tc.Steps.length := Nat.lt_trans hj hlt
  refine ⟨j, tc.Steps.get ⟨j, hjlt⟩, hj, List.get?_eq_get hjlt, ?_⟩
  have hearlier : tc.Steps.getD j ⟨0, "", []⟩ = tc.Steps.get ⟨j, hjlt⟩ := by
    simp [List.getD, List.getElem?_eq_getElem hjlt]
  exact hearlier ▸ hmem

/-- Witness of C19 on the test case that deletes a policy in its second step. -/
theorem C19_fixtures_well_formed_witness :
    (⟨"should stop enforcing policies after they are deleted",
        [ ⟨80, "TCP", [.CreatePolicy
            { ObjectMeta := { Name := "deny-all", Namespace := "x" }
              Spec := { PolicyTypes := ["Ingress", "Egress"] } }]⟩,
          ⟨80, "TCP", [.DeletePolicy "x" "deny-all"]⟩ ]⟩ : TestCase) ∈ GenerateTestCases
    ∧ ∃ j earlier, j < 1
        ∧ [ (⟨80, "TCP", [.CreatePolicy
              { ObjectMeta := { Name := "deny-all", Namespace := "x" }
                Spec := { PolicyTypes := ["Ingress", "Egress"] } }]⟩ : TestStep),
            ⟨80, "TCP", [.DeletePolicy "x" "deny-all"]⟩ ].get? j = some earlier
        ∧ ("x", "deny-all") ∈ createdKeys earlier :=
  ⟨by decide,
    (C19_fixtures_well_formed
      ⟨"should stop enforcing policies after they are deleted",
        [ ⟨80, "TCP", [.CreatePolicy
            { ObjectMeta := { Name := "deny-all", Namespace := "x" }
              Spec := { PolicyTypes := ["Ingress", "Egress"] } }]⟩,
          ⟨80, "TCP", [.DeletePolicy "x" "deny-all"]⟩ ]⟩
      (by decide)).1 1 ⟨80, "TCP", [.DeletePolicy "x" "deny-all"]⟩
      rfl ("x", "deny-all") (by decide)⟩

end Generator
